import Mathlib

/-!
Verification development for the rare-feature co-location miner.

The C++ sources under `src/` are shallowly embedded here:

* coordinates and the neighbor distance are embedded as exact integers
  (`ℤ`): the C++ `double` computations are idealized as exact real
  arithmetic, and every property treated here is invariant under scaling,
  so the embedding takes integer-valued inputs; the comparison
  `sqrt(dx*dx+dy*dy) <= d` is embedded as the equivalent exact test
  `0 ≤ d ∧ dx^2+dy^2 ≤ d^2`, and the grid's float-then-truncate index
  computations become floor/ceiling divisions;
* all scoring quantities (`PR`, `RI`, `PI`, `delta`, weights, `WPI`) are
  embedded as real numbers (`ℝ`), with `std::exp` embedded as `Real.exp`;
  the two epsilon constants from `constants.h` are carried over literally;
* raw `const SpatialInstance*` pointers are embedded as the type `Ptr`:
  a pointer either aims into the original instance vector (`Ptr.orig i`)
  or at the first/second component of the `j`-th element of the neighbor
  pair vector (`Ptr.pfst j` / `Ptr.psnd j`).  C++ pointer equality is
  `Ptr` equality; dereferencing goes through an `Env` holding the two
  vectors.  This matters: `NeighborhoodMgr::buildFromPairs` stores
  addresses of the copies living inside the pair vector, while the miner's
  size-1 table rows store addresses into the original instance vector;
* `std::map` / `std::unordered_map` values that are only ever used through
  lookups are embedded as association lists;
* `std::map::at`, which throws when the key is missing, is embedded in the
  `Except Err` monad; the C++ `while` loop of `mineColocations` is embedded
  with explicit fuel (and fuel-insensitivity is proved separately).
-/

set_option maxHeartbeats 1000000

namespace CoMine

/-! ## Data model (types.h, inferred from use sites) -/

structure SpatialInstance where
  id : String
  type : String
  x : ℤ
  y : ℤ
deriving DecidableEq, Repr

instance : Inhabited SpatialInstance := ⟨⟨"", "", 0, 0⟩⟩

/-- A C++ `const SpatialInstance*`: either a pointer into the original
instance vector, or a pointer to the first/second component of an element
of the neighbor-pair vector returned by `findNeighborPair`. -/
inductive Ptr where
  | orig (i : ℕ)
  | pfst (j : ℕ)
  | psnd (j : ℕ)
deriving DecidableEq, Repr

instance : Inhabited Ptr := ⟨Ptr.orig 0⟩

/-- The memory a `Ptr` can aim into: the ingested instance vector and the
neighbor-pair vector (both outlive every structure built from them). -/
structure Env where
  instances : List SpatialInstance
  pairs : List (SpatialInstance × SpatialInstance)

def Env.deref (env : Env) : Ptr → SpatialInstance
  | .orig i => env.instances.getD i default
  | .pfst j => (env.pairs.getD j default).1
  | .psnd j => (env.pairs.getD j default).2

abbrev FeatureType := String

/-- A colocation is a `std::vector<FeatureType>`. -/
abbrev Colocation := List FeatureType

/-- A `ColocationInstance` is a `std::vector<const SpatialInstance*>`. -/
abbrev Row := List Ptr

/-- `std::map<Colocation, std::vector<ColocationInstance>>`, used only via
`find`, embedded as an association list. -/
abbrev TableMap := List (Colocation × List Row)

/-- `std::map<FeatureType, int>`, used only via `find` / `at` / `count`. -/
abbrev CountMap := List (FeatureType × ℕ)

/-- Errors: `std::map::at` throwing on a missing key, and exhaustion of the
loop fuel used to embed the C++ `while` loop. -/
inductive Err where
  | atMissing
  | fuelOut
deriving DecidableEq, Repr

/-- Total lookup defaulting to `0`, the embedding of the C++ idiom
`m.find(k) != m.end() ? m.at(k) : 0`. -/
def cntD (m : CountMap) (k : FeatureType) : ℕ := (m.lookup k).getD 0

/-- The embedding of `m.at(k)` (throws `std::out_of_range` when absent). -/
def lookupE (m : CountMap) (k : FeatureType) : Except Err ℕ :=
  match m.lookup k with
  | some v => .ok v
  | none => .error .atMissing

/-! ## constants.h -/

namespace Constants

noncomputable def EPSILON_SMALL : ℝ := 1 / 1000000000

noncomputable def EPSILON_DELTA : ℝ := 1 / 1000000000

end Constants

/-! ## utils.cpp -/

/-- `getAllObjectTypes`: a `std::set<FeatureType>` of the `type` fields,
iterated in ascending (lexicographic) order. -/
def getAllObjectTypes (instances : List SpatialInstance) : List FeatureType :=
  List.insertionSort (· ≤ ·) (instances.map (·.type)).dedup

/-- Increment-or-insert for the association list standing in for the
`std::map<FeatureType, int>` built by `countInstancesByFeature`. -/
def bumpCount : CountMap → FeatureType → CountMap
  | [], k => [(k, 1)]
  | (k', v) :: rest, k =>
      if k' = k then (k', v + 1) :: rest else (k', v) :: bumpCount rest k

/-- `countInstancesByFeature`: NOTE the source derives the feature from the
first character of the instance id (`instance.id.substr(0, 1)`), not from
the `type` field. -/
def countInstancesByFeature (instances : List SpatialInstance) : CountMap :=
  instances.foldl (fun m o => bumpCount m (o.id.take 1)) []

/-- The strict comparator used by `featureSort` and the NR-tree build:
ascending instance count, ties broken lexicographically. -/
def featureLess (counts : CountMap) (a b : FeatureType) : Prop :=
  cntD counts a < cntD counts b ∨ (cntD counts a = cntD counts b ∧ a < b)

instance (counts : CountMap) : DecidableRel (featureLess counts) := fun _ _ => by
  unfold featureLess; infer_instance

/-- Reflexive closure of `featureLess`, the order by which `std::sort`'s
result is sorted. -/
def featureLE (counts : CountMap) (a b : FeatureType) : Prop :=
  cntD counts a < cntD counts b ∨ (cntD counts a = cntD counts b ∧ a ≤ b)

instance (counts : CountMap) : DecidableRel (featureLE counts) := fun _ _ => by
  unfold featureLE; infer_instance

instance (counts : CountMap) : IsTotal FeatureType (featureLE counts) := by
  constructor
  intro a b
  rcases lt_trichotomy (cntD counts a) (cntD counts b) with h | h | h
  · exact Or.inl (Or.inl h)
  · rcases le_total a b with h' | h'
    · exact Or.inl (Or.inr ⟨h, h'⟩)
    · exact Or.inr (Or.inr ⟨h.symm, h'⟩)
  · exact Or.inr (Or.inl h)

instance (counts : CountMap) : IsTrans FeatureType (featureLE counts) := by
  constructor
  rintro a b c (h | ⟨h, h'⟩) (g | ⟨g, g'⟩)
  · exact Or.inl (h.trans g)
  · exact Or.inl (g ▸ h)
  · exact Or.inl (h ▸ g)
  · exact Or.inr ⟨h.trans g, h'.trans g'⟩

/-- `featureSort`: `std::sort` with the count-then-lexicographic comparator;
the comparator recomputes the counts via `countInstancesByFeature`. -/
def featureSort (featureSet : List FeatureType)
    (instances : List SpatialInstance) : List FeatureType :=
  let counts := countInstancesByFeature instances
  List.insertionSort (featureLE counts) featureSet

/-- Inner double loop of `calculateDelta`: `Σ_{i<j} counts[j] / counts[i]`,
with a zero denominator replaced by `EPSILON_SMALL`. -/
noncomputable def ratioSum : List ℝ → ℝ
  | [] => 0
  | c :: rest =>
      (rest.map (fun cj => cj / (if c = 0 then Constants.EPSILON_SMALL else c))).sum
        + ratioSum rest

/-- `calculateDelta` (utils.cpp): returns `0.0` for fewer than two features,
otherwise `2/(m(m-1)) · Σ_{i<j} counts[j]/counts[i]` over the counts taken
in `sortedFeatures` order (missing features contribute count `0`). -/
noncomputable def calculateDelta (sortedFeatures : List FeatureType)
    (counts : CountMap) : ℝ :=
  if sortedFeatures.length < 2 then 0
  else
    let cs : List ℝ := sortedFeatures.map (fun f => (cntD counts f : ℝ))
    let m : ℝ := (cs.length : ℝ)
    (2 / (m * (m - 1))) * ratioSum cs

/-- `calculatePR`: number of distinct ids in column `f` of the looked-up
table, divided by the global count of `f`; `0` when `f` is not in the
pattern or the global count is `0`.  The id of a row entry is read through
the pointer, hence the `Env` parameter. -/
noncomputable def calculatePR (env : Env) (f : FeatureType) (pattern : Colocation)
    (tables : TableMap) (counts : CountMap) : ℝ :=
  if f ∈ pattern then
    let idx := pattern.indexOf f
    let rows := (tables.lookup pattern).getD []
    let ids := (rows.filterMap (fun r => (r.get? idx).map (fun p => (env.deref p).id))).dedup
    let total := cntD counts f
    if total = 0 then 0 else (ids.length : ℝ) / (total : ℝ)
  else 0

/-- The `minCount` loop of `calculateRareIntensity`: starts at `-1`, takes
the minimum of the counts of the pattern's features, and breaks with `0`
as soon as a feature is missing from the count map. -/
def minCountAux (counts : CountMap) : List FeatureType → Int → Int
  | [], acc => acc
  | g :: gs, acc =>
      match counts.lookup g with
      | some c =>
          minCountAux counts gs (if acc = -1 ∨ (c : Int) < acc then (c : Int) else acc)
      | none => 0

/-- `calculateRareIntensity` (utils.cpp): `0` when `delta ≤ EPSILON_DELTA`,
when the feature is not in the pattern, or when the minimum count is
`≤ 0`; otherwise `exp(-(v-1)^2 / (2 δ^2))` with `v = num(f)/num(f_min)`. -/
noncomputable def calculateRareIntensity (f : FeatureType) (pattern : Colocation)
    (counts : CountMap) (delta : ℝ) : ℝ :=
  if delta ≤ Constants.EPSILON_DELTA then 0
  else if f ∈ pattern then
    let mc := minCountAux counts pattern (-1)
    if mc ≤ 0 then 0
    else
      let v : ℝ := (cntD counts f : ℝ) / (mc : ℝ)
      Real.exp (-((v - 1) ^ 2) / (2 * delta * delta))
  else 0

/-- `calculatePI`: minimum of the participation ratios over the pattern
(`0` for the empty pattern), via the same first-element/fold structure as
the source loop. -/
noncomputable def calculatePI (env : Env) (pattern : Colocation)
    (tables : TableMap) (counts : CountMap) : ℝ :=
  match pattern with
  | [] => 0
  | f :: rest =>
      rest.foldl (fun acc g => min acc (calculatePR env g pattern tables counts))
        (calculatePR env f pattern tables counts)

/-! ## spatial_index.cpp -/

/-- The spatial index object: the constructor stores the threshold without
any validation. -/
structure SpatialIndex where
  distanceThreshold : ℤ

def SpatialIndex.mk' (distThresh : ℤ) : SpatialIndex := ⟨distThresh⟩

def sqDist (a b : SpatialInstance) : ℤ := (a.x - b.x) ^ 2 + (a.y - b.y) ^ 2

/-- Exact embedding of `euclideanDist(a,b) <= d`: for nonnegative radicand,
`sqrt(s) ≤ d ↔ 0 ≤ d ∧ s ≤ d²`. -/
def withinD (a b : SpatialInstance) (d : ℤ) : Prop :=
  0 ≤ d ∧ sqDist a b ≤ d ^ 2

instance (a b : SpatialInstance) (d : ℤ) : Decidable (withinD a b d) := by
  unfold withinD; infer_instance

/-- Emission guard of `findNeighborPair`: distinct types and within the
distance threshold. -/
def emitChecked (d : ℤ) (a b : SpatialInstance) :
    Option (SpatialInstance × SpatialInstance) :=
  if a.type ≠ b.type ∧ withinD a b d then some (a, b) else none

/-- Per-cell loop body: for each instance `a` of the cell, first the
within-cell pairs with the later instances, then the pairs with the
(already concatenated) adjacent cells. -/
def iterCell (d : ℤ) (adj : List SpatialInstance) :
    List SpatialInstance → List (SpatialInstance × SpatialInstance)
  | [] => []
  | a :: rest =>
      rest.filterMap (emitChecked d a) ++ adj.filterMap (emitChecked d a)
        ++ iterCell d adj rest

/-- The half-neighborhood offsets visited by the `deltaX`/`deltaY` loops,
in loop order. -/
def adjacentDeltas : List (Int × Int) := [(0, 1), (1, -1), (1, 0), (1, 1)]

/-- Ceiling division, the exact value of `std::ceil(a / d)` for integer
inputs and `d > 0`. -/
def cdivI (a d : ℤ) : ℤ := -((-a).fdiv d)

/-- `SpatialIndex::findNeighborPair`.  The grid is embedded as the function
sending a flat cell index to the instances assigned to it (assignment uses
the same flat index `cellX * gridCellsY + cellY` as the source; writes to
flat indices that are never read back model the source's out-of-range
accesses, which our concrete inputs avoid).  For `d > 0` and integer
coordinates, `⌊(x - minX)/d⌋` is `(x - minX).fdiv d` and the grid
dimensions are ceiling divisions.  With `d ≤ 0` the source's behavior is
undefined for nonempty input; the embedding then yields some value the
theorems never rely on. -/
def findNeighborPair (d : ℤ) (instances : List SpatialInstance) :
    List (SpatialInstance × SpatialInstance) :=
  match instances with
  | [] => []
  | _ :: _ =>
    let minX := ((instances.map (·.x)).min?).getD 0
    let minY := ((instances.map (·.y)).min?).getD 0
    let maxX := ((instances.map (·.x)).max?).getD 0
    let maxY := ((instances.map (·.y)).max?).getD 0
    let gcx : ℕ := (cdivI (maxX - minX) d).toNat
    let gcy : ℕ := (cdivI (maxY - minY) d).toNat
    let cellIdx : SpatialInstance → ℕ := fun o =>
      ((o.x - minX).fdiv d).toNat * gcy + ((o.y - minY).fdiv d).toNat
    let grid : ℕ → List SpatialInstance := fun idx =>
      instances.filter (fun o => cellIdx o = idx)
    (List.range gcx).flatMap fun cellX =>
      (List.range gcy).flatMap fun cellY =>
        let adj := adjacentDeltas.flatMap fun dxy =>
          let ncx : Int := (cellX : Int) + dxy.1
          let ncy : Int := (cellY : Int) + dxy.2
          if 0 ≤ ncx ∧ ncx < (gcx : Int) ∧ 0 ≤ ncy ∧ ncy < (gcy : Int) then
            grid (ncx.toNat * gcy + ncy.toNat)
          else []
        iterCell d adj (grid (cellX * gcy + cellY))

/-! ## neighborhood_mgr.cpp -/

/-- One ordered neighborhood: a center pointer and, per neighbor feature
type, the list of neighbor pointers (`struct OrderedNeigh`). -/
structure OrderedNeigh where
  center : Ptr
  neighbors : List (FeatureType × List Ptr)
deriving DecidableEq, Repr

/-- `unordered_map<FeatureType, vector<OrderedNeigh>>`, as an association
list in insertion order (the map is only read back through lookups and a
key enumeration whose order is immediately re-sorted). -/
abbrev NeighMap := List (FeatureType × List OrderedNeigh)

/-- `NeighborhoodMgr::isOrdered`; both `counts.at` calls throw when the
type is not a key of the count map. -/
def isOrdered (centerType neighborType : FeatureType) (counts : CountMap) :
    Except Err Bool := do
  let nc ← lookupE counts centerType
  let nn ← lookupE counts neighborType
  .ok (decide (nc < nn ∨ (nc = nn ∧ centerType ≤ neighborType)))

/-- `operator[]` followed by `push_back` on the inner neighbor map. -/
def pushNbr : List (FeatureType × List Ptr) → FeatureType → Ptr →
    List (FeatureType × List Ptr)
  | [], t, p => [(t, [p])]
  | (t', l) :: rest, t, p =>
      if t' = t then (t', l ++ [p]) :: rest else (t', l) :: pushNbr rest t p

/-- The `find_if` by center id followed by either a `push_back` into the
found neighborhood or the creation of a new one. -/
def addToStars (env : Env) (stars : List OrderedNeigh) (cid : String) (cptr : Ptr)
    (nt : FeatureType) (np : Ptr) : List OrderedNeigh :=
  match stars with
  | [] => [⟨cptr, [(nt, [np])]⟩]
  | s :: rest =>
      if (env.deref s.center).id = cid then
        ⟨s.center, pushNbr s.neighbors nt np⟩ :: rest
      else s :: addToStars env rest cid cptr nt np

/-- `orderedNeighborMap[type]` update (creating an empty vector on a
missing key, as `operator[]` does). -/
def setStars (nm : NeighMap) (t : FeatureType)
    (f : List OrderedNeigh → List OrderedNeigh) : NeighMap :=
  match nm with
  | [] => [(t, f [])]
  | (t', s) :: rest =>
      if t' = t then (t', f s) :: rest else (t', s) :: setStars rest t f

/-- First conditional record of the `buildFromPairs` loop body: when the
pair's first component is the ordered center, its neighborhood gains the
second component. -/
def addFirst (env : Env) (nm : NeighMap)
    (jp : ℕ × SpatialInstance × SpatialInstance) (o1 : Bool) : NeighMap :=
  if o1 then
    setStars nm jp.2.1.type
      (fun s => addToStars env s jp.2.1.id (Ptr.pfst jp.1) jp.2.2.type (Ptr.psnd jp.1))
  else nm

/-- Second conditional record: symmetric to `addFirst`. -/
def addSecond (env : Env) (nm : NeighMap)
    (jp : ℕ × SpatialInstance × SpatialInstance) (o2 : Bool) : NeighMap :=
  if o2 then
    setStars nm jp.2.2.type
      (fun s => addToStars env s jp.2.2.id (Ptr.psnd jp.1) jp.2.1.type (Ptr.pfst jp.1))
  else nm

/-- Loop body of `buildFromPairs` for the pair with index `jp.1` and value
`jp.2`: record the second component in the first's ordered neighborhood
when `isOrdered` holds, and symmetrically; either `counts.at` throw aborts
the build.  (The second `isOrdered` call does not depend on the first
update, so evaluating both lookups before the pure updates is the
source's semantics.) -/
def buildStep (env : Env) (counts : CountMap) (nm : NeighMap)
    (jp : ℕ × SpatialInstance × SpatialInstance) : Except Err NeighMap :=
  (isOrdered jp.2.1.type jp.2.2.type counts).bind fun o1 =>
    (isOrdered jp.2.2.type jp.2.1.type counts).bind fun o2 =>
      .ok (addSecond env (addFirst env nm jp o1) jp o2)

/-- `NeighborhoodMgr::buildFromPairs`: fold the step over the indexed pair
vector.  The recorded pointers aim into the pair vector itself
(`&pair.first` / `&pair.second` in the source). -/
def buildFromPairs (env : Env) (counts : CountMap) : Except Err NeighMap :=
  env.pairs.enum.foldlM (buildStep env counts) []

/-! ## NRTree.cpp -/

/-- Level-3 node (neighbor feature) together with its single level-4
instance-vector child. -/
structure NRL3 where
  featureType : FeatureType
  leaf : List Ptr
deriving DecidableEq, Repr

/-- Level-2 node: a center instance pointer and its neighbor-feature
children. -/
structure NRL2 where
  instancePtr : Ptr
  children : List NRL3
deriving DecidableEq, Repr

/-- Level-1 node: a center feature and its instance children.  The tree is
the root's list of level-1 children; `NRTree::build` always produces this
four-level shape, so the tagged `NRNode` variant is embedded in typed
form. -/
structure NRL1 where
  featureType : FeatureType
  children : List NRL2
deriving DecidableEq, Repr

abbrev NRTreeT := List NRL1

/-- Comparator for level-2 children: ascending center id. -/
def centerIdLE (env : Env) (a b : OrderedNeigh) : Prop :=
  (env.deref a.center).id ≤ (env.deref b.center).id

instance (env : Env) : DecidableRel (centerIdLE env) := fun _ _ => by
  unfold centerIdLE; infer_instance

/-- Comparator for level-4 vectors: ascending (type, id) of the pointed-to
instance. -/
def ptrTypeIdLE (env : Env) (p q : Ptr) : Prop :=
  (env.deref p).type < (env.deref q).type ∨
    ((env.deref p).type = (env.deref q).type ∧ (env.deref p).id ≤ (env.deref q).id)

instance (env : Env) : DecidableRel (ptrTypeIdLE env) := fun _ _ => by
  unfold ptrTypeIdLE; infer_instance

/-- `NRTree::build`: level-1 features sorted by count then lexicographic,
level-2 centers sorted by id, level-3 neighbor features sorted by count
then lexicographic, level-4 vectors sorted by (type, id). -/
def buildNRTree (env : Env) (nm : NeighMap) (counts : CountMap) : NRTreeT :=
  let feats := List.insertionSort (featureLE counts) (nm.map (·.1))
  feats.map fun ft =>
    let stars := (nm.lookup ft).getD []
    let sortedStars := List.insertionSort (centerIdLE env) stars
    ⟨ft, sortedStars.map fun star =>
      let ntypes := List.insertionSort (featureLE counts) (star.neighbors.map (·.1))
      ⟨star.center, ntypes.map fun nt =>
        ⟨nt, List.insertionSort (ptrTypeIdLE env) ((star.neighbors.lookup nt).getD [])⟩⟩⟩

/-! ## miner.cpp -/

/-- `JoinlessMiner::findNeighbors`: walk the four levels, matching the
level-1 feature against the dereferenced type of the argument, the level-2
node by raw pointer equality (`instanceNode->data == instance` in the
source), and the level-3 feature against the requested one; return the
first level-4 vector found, or the empty list. -/
def findNeighbors (env : Env) (tree : NRTreeT) (p : Ptr) (f : FeatureType) :
    List Ptr :=
  (tree.flatMap fun l1 =>
    if l1.featureType = (env.deref p).type then
      l1.children.flatMap fun l2 =>
        if l2.instancePtr = p then
          l2.children.filterMap fun l3 =>
            if l3.featureType = f then some l3.leaf else none
        else []
    else []).headD []

/-- `JoinlessMiner::findExtendedSet`: intersection of the neighbor lists of
the row's pointers, where membership is raw pointer equality
(`std::set<const SpatialInstance*>` in the source).  The source's early
break on an empty intersection does not change the result and is not
modeled. -/
def findExtendedSet (env : Env) (tree : NRTreeT) : Row → FeatureType → List Ptr
  | [], _ => []
  | p0 :: rest, f =>
      rest.foldl
        (fun inter p => inter.filter (fun q => q ∈ findNeighbors env tree p f))
        (findNeighbors env tree p0 f)

/-- Row-extension step of `genTableInstance`: extend each prefix row by
every member of its extended set whose dereferenced type is the new
feature. -/
def extendRows (env : Env) (tree : NRTreeT) (prevRows : List Row)
    (newFeature : FeatureType) : List Row :=
  prevRows.flatMap fun r =>
    (findExtendedSet env tree r newFeature).filterMap fun o =>
      if (env.deref o).type = newFeature then some (r ++ [o]) else none

/-- `JoinlessMiner::genTableInstance`: split each candidate into its
`k-1`-prefix and new feature, look the prefix table up (a missed lookup,
like an empty extension, stores nothing), and store the extended rows when
nonempty. -/
def genTableInstance (env : Env) (tree : NRTreeT) (candidates : List Colocation)
    (prevT : TableMap) : TableMap :=
  candidates.foldl
    (fun result c =>
      if c = [] then result
      else if extendRows env tree ((prevT.lookup c.dropLast).getD []) (c.getLastD "") = []
        then result
      else result ++
        [(c, extendRows env tree ((prevT.lookup c.dropLast).getD []) (c.getLastD ""))])
    []

/-- All ordered index pairs `(i, j)` with `i < j`, in the loop order of
`generateCandidates`, materialized as element pairs. -/
def joinPairsList : List Colocation → List (Colocation × Colocation)
  | [] => []
  | p :: rest => rest.map (fun q => (p, q)) ++ joinPairsList rest

/-- One join step of `generateCandidates`: joins only on equal `k-2`
prefixes; the two `featureCount.at` calls throw on missing keys; the
last feature of the result is the one with the larger count. -/
def joinOne (counts : CountMap) (pq : Colocation × Colocation) :
    Except Err (Option Colocation) :=
  if pq.1.dropLast ≠ pq.2.dropLast then .ok none
  else do
    let cp ← lookupE counts (pq.1.getLastD "")
    let cq ← lookupE counts (pq.2.getLastD "")
    .ok (some (if cp ≤ cq then pq.1 ++ [pq.2.getLastD ""] else pq.2 ++ [pq.1.getLastD ""]))

/-- `std::unique` on a sorted vector: drop adjacent duplicates. -/
def dedupAdj : List Colocation → List Colocation
  | [] => []
  | [a] => [a]
  | a :: b :: rest =>
      if a = b then dedupAdj (b :: rest) else a :: dedupAdj (b :: rest)

/-- `std::sort` by `operator<` on `vector<string>` (lexicographic, embedded
through the `List String` linear order) followed by `std::unique`. -/
def sortDedup (l : List Colocation) : List Colocation :=
  dedupAdj (List.insertionSort (· ≤ ·) l)

/-- One accumulation step of the double loop of `generateCandidates`:
append the join result when the pair joins. -/
def joinStep (counts : CountMap) (acc : List Colocation)
    (pq : Colocation × Colocation) : Except Err (List Colocation) :=
  (joinOne counts pq).bind fun r =>
    match r with
    | none => .ok acc
    | some c => .ok (acc ++ [c])

/-- `JoinlessMiner::generateCandidates`. -/
def generateCandidates (prevList : List Colocation) (counts : CountMap) :
    Except Err (List Colocation) :=
  if prevList = [] then .ok []
  else
    ((joinPairsList prevList).foldlM (joinStep counts) []).bind fun raw =>
      .ok (sortDedup raw)

open Classical in
/-- The weight computation of `selectPrevColocations`: `1/RI` guarded by
`RI > EPSILON_SMALL`, else `0`. -/
noncomputable def weightOf (ri : ℝ) : ℝ :=
  if ri > Constants.EPSILON_SMALL then 1 / ri else 0

noncomputable def wprOf (env : Env) (f : FeatureType) (c : Colocation)
    (tables : TableMap) (counts : CountMap) (delta : ℝ) : ℝ :=
  calculatePR env f c tables counts * weightOf (calculateRareIntensity f c counts delta)

/-- The `wpi` loop of `selectPrevColocations`: `1.0` for an empty
candidate, otherwise the running minimum of the weighted participation
ratios in feature order. -/
noncomputable def wpiOf (env : Env) (c : Colocation) (tables : TableMap)
    (counts : CountMap) (delta : ℝ) : ℝ :=
  match c with
  | [] => 1
  | f :: rest =>
      rest.foldl (fun acc g => min acc (wprOf env g c tables counts delta))
        (wprOf env f c tables counts delta)

open Classical in
/-- `JoinlessMiner::selectPrevColocations`: keep the candidates whose WPI
reaches the threshold. -/
noncomputable def selectPrevColocations (env : Env) (candidates : List Colocation)
    (tables : TableMap) (minPrev : ℝ) (counts : CountMap) (delta : ℝ) :
    List Colocation :=
  candidates.filter fun c => decide (wpiOf env c tables counts delta ≥ minPrev)

open Classical in
/-- The Lemma-3 test of `filterCandidates` does NOT prune the candidate.
The source computes `w = 1.0 / RI` without any epsilon guard and prunes
when `piSubset * w < minPrev`.  Under IEEE semantics `1.0 / 0.0 = +∞` and
both `piSubset * ∞` (`= ∞` for positive `piSubset`) and `0 * ∞` (`= NaN`)
make the `<` comparison false, so with `RI = 0` the test never prunes;
this is captured by the `RI ≠ 0` conjunct (for `RI ≠ 0` real division
agrees with the IEEE computation). -/
noncomputable def lemma3Pass (env : Env) (c : Colocation) (prevT : TableMap)
    (minPrev : ℝ) (counts : CountMap) (delta : ℝ) : Prop :=
  let ri := calculateRareIntensity (c.getLastD "") c counts delta
  ¬ (ri ≠ 0 ∧ calculatePI env (c.drop 1) prevT counts * (1 / ri) < minPrev)

/-- Validity of one candidate in `filterCandidates`: for every deleted
position `i ≠ 0` the subset must be previously prevalent (Lemma 2), and
for `i = 0` the Lemma-3 upper-bound test must not prune. -/
noncomputable def candidateValid (env : Env) (c : Colocation)
    (prevList : List Colocation) (prevT : TableMap) (minPrev : ℝ)
    (counts : CountMap) (delta : ℝ) : Prop :=
  ∀ i < c.length,
    (i ≠ 0 → c.eraseIdx i ∈ prevList) ∧
    (i = 0 → lemma3Pass env c prevT minPrev counts delta)

open Classical in
/-- `JoinlessMiner::filterCandidates`. -/
noncomputable def filterCandidates (env : Env) (candidates : List Colocation)
    (prevList : List Colocation) (prevT : TableMap) (minPrev : ℝ)
    (counts : CountMap) (delta : ℝ) : List Colocation :=
  if candidates = [] ∨ prevList = [] then []
  else candidates.filter fun c =>
    decide (candidateValid env c prevList prevT minPrev counts delta)

/-- `prevTableInstances[key].push_back(row)`. -/
def bumpTable : TableMap → Colocation → Row → TableMap
  | [], c, r => [(c, [r])]
  | (c', rs) :: rest, c, r =>
      if c' = c then (c', rs ++ [r]) :: rest else (c', rs) :: bumpTable rest c r

/-- The level-1 table `T1 = O`: one single-pointer row per instance, keyed
by the singleton of the instance's type, in input order.  The stored
pointers aim into the original instance vector (`&instance` in the
source). -/
def initialTables (instances : List SpatialInstance) : TableMap :=
  instances.enum.foldl
    (fun m ip => bumpTable m [ip.2.type] [Ptr.orig ip.1]) []

/-- The loop state of `mineColocations`: the level counter `k`, the
previous level's prevalent colocations and table map, and the two
accumulators (result list, and the per-level table maps the theorems
below inspect). -/
structure LoopState where
  k : ℕ
  prevCol : List Colocation
  prevT : TableMap
  acc : List Colocation
  tabs : List TableMap

/-- One iteration body of the `while` loop (steps 9-13) once the level's
candidates `cs` are generated: filter (skipped at `k = 2`), generate the
level's table instances, select the prevalent candidates, accumulate, and
advance `k`. -/
noncomputable def loopBody (env : Env) (tree : NRTreeT) (counts : CountMap)
    (minPrev delta : ℝ) (st : LoopState) (cs : List Colocation) : LoopState :=
  let fcs := if st.k = 2 then cs
    else filterCandidates env cs st.prevCol st.prevT minPrev counts delta
  let tk := genTableInstance env tree fcs st.prevT
  let pk := selectPrevColocations env fcs tk minPrev counts delta
  ⟨st.k + 1, pk, tk, st.acc ++ pk, st.tabs ++ [tk]⟩

/-- The `while` loop of `mineColocations` (steps 7-14), with explicit
fuel. -/
noncomputable def mineLoopFuel (env : Env) (tree : NRTreeT) (counts : CountMap)
    (minPrev delta : ℝ) :
    ℕ → LoopState → Except Err (List Colocation × List TableMap)
  | 0, _ => .error .fuelOut
  | fuel + 1, st =>
    if st.prevCol = [] then .ok (st.acc, st.tabs)
    else
      (generateCandidates st.prevCol counts).bind fun cs =>
        if cs = [] then .ok (st.acc, st.tabs)
        else mineLoopFuel env tree counts minPrev delta fuel
          (loopBody env tree counts minPrev delta st cs)

/-- The filtered candidate list of the iteration. -/
noncomputable def levelFcs (env : Env) (counts : CountMap) (minPrev delta : ℝ)
    (st : LoopState) (cs : List Colocation) : List Colocation :=
  if st.k = 2 then cs
  else filterCandidates env cs st.prevCol st.prevT minPrev counts delta

theorem loopBody_eq (env : Env) (tree : NRTreeT) (counts : CountMap)
    (minPrev delta : ℝ) (st : LoopState) (cs : List Colocation) :
    loopBody env tree counts minPrev delta st cs =
      ⟨st.k + 1,
       selectPrevColocations env (levelFcs env counts minPrev delta st cs)
         (genTableInstance env tree (levelFcs env counts minPrev delta st cs) st.prevT)
         minPrev counts delta,
       genTableInstance env tree (levelFcs env counts minPrev delta st cs) st.prevT,
       st.acc ++
         selectPrevColocations env (levelFcs env counts minPrev delta st cs)
           (genTableInstance env tree (levelFcs env counts minPrev delta st cs) st.prevT)
           minPrev counts delta,
       st.tabs ++
         [genTableInstance env tree (levelFcs env counts minPrev delta st cs) st.prevT]⟩ :=
  rfl

/-- `JoinlessMiner::mineColocations`: initialization (steps 1-6) and the
level-wise loop.  The fuel `types.length + 1` is proved sufficient by the
termination theorem below. -/
noncomputable def mineColocations (env : Env) (minPrev : ℝ) (tree : NRTreeT)
    (instances : List SpatialInstance) (counts : CountMap) :
    Except Err (List Colocation × List TableMap) :=
  let types := getAllObjectTypes instances
  let sortedTypes := featureSort types instances
  let delta := calculateDelta sortedTypes counts
  mineLoopFuel env tree counts minPrev delta (types.length + 1)
    ⟨2, sortedTypes.map (fun t => [t]), initialTables instances, [], []⟩

/-- The composition performed by `main`: count features, build the spatial
index and the neighbor pairs, materialize the ordered neighborhoods, build
the NR-tree, and mine. -/
noncomputable def runMine (d : ℤ) (minPrev : ℝ) (instances : List SpatialInstance) :
    Except Err (List Colocation × List TableMap) := do
  let counts := countInstancesByFeature instances
  let idx := SpatialIndex.mk' d
  let pairs := findNeighborPair idx.distanceThreshold instances
  let env : Env := ⟨instances, pairs⟩
  let nm ← buildFromPairs env counts
  let tree := buildNRTree env nm counts
  mineColocations env minPrev tree instances counts

/-- The colocation list returned by a successful run. -/
noncomputable def runResult (d : ℤ) (minPrev : ℝ)
    (instances : List SpatialInstance) : List Colocation :=
  match runMine d minPrev instances with
  | .ok r => r.1
  | .error _ => []

/-- The table map generated at level `k` of a successful run (the empty
map when the loop never reached level `k`). -/
noncomputable def runTablesAt (d : ℤ) (minPrev : ℝ)
    (instances : List SpatialInstance) (k : ℕ) : TableMap :=
  match runMine d minPrev instances with
  | .ok r => (r.2.get? (k - 2)).getD []
  | .error _ => []

/-! ## Specification-side definitions

These definitions follow the wording of the specification (not the
source); they exist to be compared against the source-derived definitions
above. -/

/-- Neighbors of the object `o` under neighbor feature `f`, looking the
center up by object identity (its id) as the specification's
`NR-tree.neighbors_of(o, f)` does, rather than by raw pointer. -/
def specNeighborsOf (env : Env) (tree : NRTreeT) (o : SpatialInstance)
    (f : FeatureType) : List Ptr :=
  (tree.flatMap fun l1 =>
    if l1.featureType = o.type then
      l1.children.flatMap fun l2 =>
        if (env.deref l2.instancePtr).id = o.id then
          l2.children.filterMap fun l3 =>
            if l3.featureType = f then some l3.leaf else none
        else []
    else []).headD []

/-- The specification's extension set `S(I, new)`: the intersection of the
`neighbors_of` lists over the row's objects, decided on the set of object
ids (an object is common to two lists whenever both contain an entry with
its id). -/
def specExtendedSetIds (env : Env) (tree : NRTreeT) (row : Row)
    (f : FeatureType) : List String :=
  let idsOf : Ptr → List String := fun p =>
    ((specNeighborsOf env tree (env.deref p) f).map (fun q => (env.deref q).id)).dedup
  match row with
  | [] => []
  | p0 :: rest => rest.foldl (fun inter p => inter.filter (· ∈ idsOf p)) (idsOf p0)

/-- The claim's `WPI(C)`: the minimum over `f ∈ C` of
`PR(f, C) · w(f, C)`, computed over the given table map (`0` when the
pattern is empty, a case the theorems never use). -/
noncomputable def specWPI (env : Env) (c : Colocation) (tables : TableMap)
    (counts : CountMap) (delta : ℝ) : ℝ :=
  ((c.map (fun f => wprOf env f c tables counts delta)).min?).getD 0

/-! ## Lemmas about `countInstancesByFeature` (claim C3) -/

theorem lookup_bumpCount (m : CountMap) (k k' : FeatureType) :
    (bumpCount m k').lookup k =
      if k' = k then some (cntD m k + 1) else m.lookup k := by
  induction m with
  | nil =>
      by_cases h : k' = k
      · subst h; simp [bumpCount, cntD]
      · have hk : (k == k') = false := beq_eq_false_iff_ne.mpr fun h' => h h'.symm
        simp [bumpCount, List.lookup, hk, h]
  | cons e rest ih =>
      obtain ⟨a, v⟩ := e
      by_cases hak' : a = k' <;> by_cases hak : a = k
      · subst hak'; subst hak
        simp [bumpCount, List.lookup, cntD]
      · subst hak'
        have hk : (k == a) = false := beq_eq_false_iff_ne.mpr fun h' => hak h'.symm
        simp [bumpCount, List.lookup, hk, hak]
      · subst hak
        have hne : ¬(k' = a) := fun h' => hak' h'.symm
        simp [bumpCount, hak', List.lookup, hne, cntD]
      · have hk : (k == a) = false := beq_eq_false_iff_ne.mpr fun h' => hak h'.symm
        simp [bumpCount, hak', List.lookup, hk, ih, cntD]

theorem lookup_countFold (l : List SpatialInstance) (m : CountMap) (f : FeatureType) :
    ((l.foldl (fun m o => bumpCount m (o.id.take 1)) m).lookup f) =
      (if (l.filter (fun o => o.id.take 1 = f)).length = 0 then m.lookup f
       else some (cntD m f + (l.filter (fun o => o.id.take 1 = f)).length)) := by
  induction l generalizing m with
  | nil => simp
  | cons o rest ih =>
      by_cases h : o.id.take 1 = f
      · have hl' : (bumpCount m (o.id.take 1)).lookup f = some (cntD m f + 1) := by
          rw [lookup_bumpCount, if_pos h]
        have hc : cntD (bumpCount m (o.id.take 1)) f = cntD m f + 1 := by
          unfold cntD; rw [hl']; rfl
        simp only [List.foldl_cons, List.filter_cons]
        rw [ih, hl', hc]
        simp only [h, decide_true_eq_true, decide_True, if_true, List.length_cons,
          Nat.succ_ne_zero, if_false, decide_eq_true_eq]
        by_cases h0 : (rest.filter (fun o => decide (o.id.take 1 = f))).length = 0
        · simp [h0]
        · simp only [h0, if_false, Option.some.injEq]
          omega
      · have hl : (bumpCount m (o.id.take 1)).lookup f = m.lookup f := by
          rw [lookup_bumpCount, if_neg h]
        have hc : cntD (bumpCount m (o.id.take 1)) f = cntD m f := by
          unfold cntD; rw [hl]
        simp only [List.foldl_cons, List.filter_cons]
        rw [ih]
        simp [h, hl, hc]

/-- C3, amended: the feature catalog's count of `f` is the number of input
objects whose id begins (first character) with `f`; the `type` field plays
no role.  A key is present exactly when that number is positive. -/
theorem countInstancesByFeature_lookup (instances : List SpatialInstance)
    (f : FeatureType) :
    (countInstancesByFeature instances).lookup f =
      (if (instances.filter (fun o => o.id.take 1 = f)).length = 0 then none
       else some (instances.filter (fun o => o.id.take 1 = f)).length) := by
  unfold countInstancesByFeature
  rw [lookup_countFold]
  simp [cntD]

/-- C3, counterexample: an object whose `type` field is `A` but whose id
begins with `B` is counted under `B`, not under its given type; so the
catalog count of `A` is `0` although exactly one input object has type
`A`. -/
theorem c3_counterexample :
    (countInstancesByFeature [⟨"B9", "A", 0, 0⟩]).lookup "A" = none ∧
      ((([⟨"B9", "A", 0, 0⟩] : List SpatialInstance).filter
        (fun o => o.type = "A")).length = 1) := by
  constructor
  · rfl
  · rfl

/-! ## Claim C9: no distance validation exists -/

/-- C9, counterexample: with the invalid distance `d = -1` the spatial
index constructor succeeds (it stores the value unvalidated), the
neighbor-pair enumeration executes and returns normally, and the whole run
completes with `.ok`; no `InvalidDistance` error is ever reported (no such
error value even exists in the code). -/
theorem c9_counterexample :
    (SpatialIndex.mk' (-1)).distanceThreshold = -1 ∧
      findNeighborPair (-1) [] = [] ∧
      runMine (-1) (1/2) [] = .ok ([], []) := by
  refine ⟨rfl, rfl, ?_⟩
  unfold runMine
  simp only [SpatialIndex.mk']
  rfl

/-- C9, amended: for every `d ≤ 0` the constructor accepts and stores `d`
without validation and no error is reported before (or during)
neighbor-pair enumeration; on empty input the full pipeline returns an
empty result for any threshold. -/
theorem c9_no_distance_validation (d : ℤ) (minPrev : ℝ) (h : d ≤ 0) :
    (SpatialIndex.mk' d).distanceThreshold = d ∧
      findNeighborPair d [] = [] ∧
      runMine d minPrev [] = .ok ([], []) := by
  refine ⟨rfl, rfl, ?_⟩
  unfold runMine
  simp only [SpatialIndex.mk']
  rfl

/-- Witness for `c9_no_distance_validation` at `d = -2`,
`minPrev = 1/2`. -/
theorem c9_no_distance_validation_witness :
    (-2 : ℤ) ≤ 0 ∧
      ((SpatialIndex.mk' (-2)).distanceThreshold = -2 ∧
        findNeighborPair (-2) [] = [] ∧
        runMine (-2) (1/2) [] = .ok ([], [])) :=
  ⟨by norm_num, c9_no_distance_validation (-2) (1/2) (by norm_num)⟩

/-! ## Shared numeric helper lemmas -/

theorem eps_small_nonneg : (0 : ℝ) ≤ Constants.EPSILON_SMALL := by
  unfold Constants.EPSILON_SMALL; norm_num

theorem eps_delta_nonneg : (0 : ℝ) ≤ Constants.EPSILON_DELTA := by
  unfold Constants.EPSILON_DELTA; norm_num

theorem zero_le_eps_delta : (0 : ℝ) ≤ Constants.EPSILON_DELTA := eps_delta_nonneg

/-- `calculateRareIntensity` returns `0` whenever `delta` is at most the
epsilon threshold (the first guard of the source function). -/
theorem calculateRareIntensity_of_delta_le (f : FeatureType) (pattern : Colocation)
    (counts : CountMap) (delta : ℝ) (h : delta ≤ Constants.EPSILON_DELTA) :
    calculateRareIntensity f pattern counts delta = 0 := by
  unfold calculateRareIntensity
  rw [if_pos h]

/-- The select-site weight is `0` whenever `RI ≤ EPSILON_SMALL`. -/
theorem weightOf_of_le (ri : ℝ) (h : ri ≤ Constants.EPSILON_SMALL) :
    weightOf ri = 0 := by
  unfold weightOf
  rw [if_neg (not_lt.mpr h)]

theorem foldl_min_le_init {α : Type} (l : List α) (g : α → ℝ) (init : ℝ) :
    l.foldl (fun a x => min a (g x)) init ≤ init := by
  induction l generalizing init with
  | nil => simp
  | cons x rest ih =>
      simp only [List.foldl_cons]
      exact le_trans (ih (min init (g x))) (min_le_left _ _)

theorem foldl_min_le_mem {α : Type} (l : List α) (g : α → ℝ) (init : ℝ)
    (x : α) (hx : x ∈ l) :
    l.foldl (fun a y => min a (g y)) init ≤ g x := by
  induction l generalizing init with
  | nil => cases hx
  | cons y rest ih =>
      simp only [List.foldl_cons]
      rcases List.mem_cons.mp hx with h | h
      · subst h
        exact le_trans (foldl_min_le_init rest g _) (min_le_right _ _)
      · exact ih (min init (g y)) h

/-- The running minimum computed by `selectPrevColocations` is at most the
weighted participation ratio of every feature of the candidate. -/
theorem wpiOf_le_wprOf (env : Env) (c : Colocation) (tables : TableMap)
    (counts : CountMap) (delta : ℝ) (f : FeatureType) (hf : f ∈ c) :
    wpiOf env c tables counts delta ≤ wprOf env f c tables counts delta := by
  match c with
  | [] => cases hf
  | g :: rest =>
      unfold wpiOf
      rcases List.mem_cons.mp hf with h | h
      · subst h
        exact foldl_min_le_init rest _ _
      · exact foldl_min_le_mem rest _ _ _ h

/-! ## Claim C10 -/

/-- C10: with fewer than two distinct feature types `calculateDelta`
returns `0`; whenever `delta ≤ ε`, `calculateRareIntensity` returns `0`;
and then every weight in `selectPrevColocations` is `0`, every WPR is `0`,
and no (nonempty) candidate is selected under any `minPrev > 0`. -/
theorem c10_degenerate_delta :
    (∀ (instances : List SpatialInstance) (counts : CountMap),
      (getAllObjectTypes instances).length < 2 →
      calculateDelta (featureSort (getAllObjectTypes instances) instances) counts = 0) ∧
    (∀ (f : FeatureType) (pattern : Colocation) (counts : CountMap) (delta : ℝ),
      delta ≤ Constants.EPSILON_DELTA →
      calculateRareIntensity f pattern counts delta = 0) ∧
    (∀ (env : Env) (candidates : List Colocation) (tables : TableMap)
      (minPrev : ℝ) (counts : CountMap) (delta : ℝ),
      delta ≤ Constants.EPSILON_DELTA → 0 < minPrev →
      (∀ c ∈ candidates, c ≠ []) →
      selectPrevColocations env candidates tables minPrev counts delta = []) := by
  refine ⟨?_, ?_, ?_⟩
  · intro instances counts h
    unfold calculateDelta featureSort
    rw [if_pos]
    simpa [List.length_insertionSort] using h
  · intro f pattern counts delta h
    exact calculateRareIntensity_of_delta_le f pattern counts delta h
  · intro env candidates tables minPrev counts delta hd hm hne
    unfold selectPrevColocations
    rw [List.filter_eq_nil_iff]
    intro c hc
    have hcne := hne c hc
    rw [decide_eq_true_eq, not_le]
    have hwpr : ∀ g, wprOf env g c tables counts delta = 0 := by
      intro g
      unfold wprOf
      rw [calculateRareIntensity_of_delta_le g c counts delta hd,
        weightOf_of_le 0 eps_small_nonneg, mul_zero]
    have hwpi : wpiOf env c tables counts delta ≤ 0 := by
      match c, hcne with
      | g :: rest, _ =>
          calc wpiOf env (g :: rest) tables counts delta
              ≤ wprOf env g (g :: rest) tables counts delta :=
                wpiOf_le_wprOf env _ tables counts delta g (List.mem_cons_self g rest)
            _ = 0 := hwpr g
    exact lt_of_le_of_lt hwpi hm

/-- Witness for `c10_degenerate_delta` at concrete inputs: one object (one
distinct type), `delta = 0`, `minPrev = 1/2`, candidate list
`[[A, B]]`. -/
theorem c10_degenerate_delta_witness :
    calculateDelta
      (featureSort (getAllObjectTypes [(⟨"A1", "A", 0, 0⟩ : SpatialInstance)])
        [⟨"A1", "A", 0, 0⟩]) [] = 0 ∧
    calculateRareIntensity "A" ["A"] [] 0 = 0 ∧
    selectPrevColocations ⟨[], []⟩ [["A", "B"]] [] (1/2) [] 0 = [] := by
  refine ⟨?_, ?_, ?_⟩
  · exact c10_degenerate_delta.1 [⟨"A1", "A", 0, 0⟩] [] (by decide)
  · exact c10_degenerate_delta.2.1 "A" ["A"] [] 0 zero_le_eps_delta
  · exact c10_degenerate_delta.2.2 ⟨[], []⟩ [["A", "B"]] [] (1/2) [] 0
      zero_le_eps_delta one_half_pos (by decide)

/-! ## Claim C7 -/

/-- C7, counterexample: in the Lemma-3 branch of `filterCandidates` the
weight is NOT treated as `0` when `RI ≤ ε`.  Here `delta = 0` makes
`RI(c, (a,b,c)) = 0 ≤ ε`, yet the candidate passes the filter (if the
weight were treated as `0`, the upper bound `PI · 0 = 0 < 1/2` would
reject it). -/
theorem c7_counterexample :
    calculateRareIntensity "c" ["a", "b", "c"] [] 0 = 0 ∧
    filterCandidates ⟨[], []⟩ [["a", "b", "c"]] [["a", "b"], ["a", "c"]] []
      1 [] 0 = [["a", "b", "c"]] := by
  constructor
  · exact calculateRareIntensity_of_delta_le _ _ _ _ zero_le_eps_delta
  · unfold filterCandidates
    rw [if_neg (by simp)]
    have hvalid : candidateValid ⟨[], []⟩ ["a", "b", "c"] [["a", "b"], ["a", "c"]]
        [] 1 [] 0 := by
      intro i hi
      have hi3 : i < 3 := by simpa using hi
      constructor
      · intro hi0
        interval_cases i
        · exact absurd rfl hi0
        · simp [List.eraseIdx]
        · simp [List.eraseIdx]
      · intro hi0
        subst hi0
        unfold lemma3Pass
        rw [calculateRareIntensity_of_delta_le _ _ _ _ zero_le_eps_delta]
        simp
    simp [hvalid]

/-- C7, amended: only `selectPrevColocations` guards the weight: there,
`RI ≤ ε` forces `w = 0`, so a candidate containing such a feature cannot
pass any threshold `minPrev > 0`.  In the Lemma-3 branch of
`filterCandidates` the division `1/RI` is unguarded; when `RI = 0` the
IEEE comparison `PI·(1/RI) < minPrev` is false, so the Lemma-3 test never
rejects the candidate there. -/
theorem c7_weight_guard_only_at_select :
    (∀ (env : Env) (candidates : List Colocation) (tables : TableMap)
      (minPrev : ℝ) (counts : CountMap) (delta : ℝ) (c : Colocation)
      (f : FeatureType), f ∈ c →
      calculateRareIntensity f c counts delta ≤ Constants.EPSILON_SMALL →
      0 < minPrev →
      c ∉ selectPrevColocations env candidates tables minPrev counts delta) ∧
    (∀ (env : Env) (c : Colocation) (prevT : TableMap) (minPrev : ℝ)
      (counts : CountMap) (delta : ℝ),
      calculateRareIntensity (c.getLastD "") c counts delta = 0 →
      lemma3Pass env c prevT minPrev counts delta) := by
  constructor
  · intro env candidates tables minPrev counts delta c f hf hri hm hmem
    unfold selectPrevColocations at hmem
    have := List.of_mem_filter hmem
    rw [decide_eq_true_eq] at this
    have hwpr : wprOf env f c tables counts delta = 0 := by
      unfold wprOf
      rw [weightOf_of_le _ hri, mul_zero]
    have hwpi : wpiOf env c tables counts delta ≤ 0 := by
      calc wpiOf env c tables counts delta
          ≤ wprOf env f c tables counts delta := wpiOf_le_wprOf env c tables counts delta f hf
        _ = 0 := hwpr
    exact absurd (le_trans this hwpi) (not_le.mpr hm)
  · intro env c prevT minPrev counts delta hri
    unfold lemma3Pass
    rw [hri]
    simp

/-- Witness for `c7_weight_guard_only_at_select` at concrete inputs. -/
theorem c7_weight_guard_only_at_select_witness :
    (["A", "B"] : Colocation) ∉
      selectPrevColocations ⟨[], []⟩ [["A", "B"]] [] (1/2) [] 0 ∧
    lemma3Pass ⟨[], []⟩ ["a", "b", "c"] [] (3/4) [] 0 :=
  ⟨c7_weight_guard_only_at_select.1 ⟨[], []⟩ [["A", "B"]] [] (1/2) [] 0
      ["A", "B"] "A" (by decide)
      (by
        rw [calculateRareIntensity_of_delta_le _ _ _ _ zero_le_eps_delta]
        exact eps_small_nonneg)
      one_half_pos,
    c7_weight_guard_only_at_select.2 ⟨[], []⟩ ["a", "b", "c"] [] (3/4) [] 0
      (calculateRareIntensity_of_delta_le _ _ _ _ zero_le_eps_delta)⟩

/-! ## Claim C5: grid boundary misplacement -/

/-- Failing input for C5 (`d = 10`): `B1` lies on the max-y boundary and
`(maxY - minY)/d = 3` is an exact integer, so `B1` is assigned cell-y
index `3 = gridCellsY`; with the flat index `cellX * gridCellsY + cellY`
it lands in flat cell `3`, i.e. cell `(1, 0)`, while its true neighbor
`A1` sits in cell `(0, 2)`; those two cells are never compared. -/
def c5Instances : List SpatialInstance :=
  [⟨"C1", "C", 0, 0⟩, ⟨"D1", "D", 45, 0⟩,
   ⟨"A1", "A", 5, 29⟩, ⟨"B1", "B", 5, 30⟩]

/-- C5: the pair `(A1, B1)` has distinct types and distance `1 ≤ d = 10`,
both objects are in the input, yet `findNeighborPair` emits no pair at
all — the qualifying pair of the max-y boundary object is lost. -/
theorem c5_code_bug :
    withinD ⟨"A1", "A", 5, 29⟩ ⟨"B1", "B", 5, 30⟩ 10 ∧
    ("A" : String) ≠ "B" ∧
    (⟨"A1", "A", 5, 29⟩ : SpatialInstance) ∈ c5Instances ∧
    (⟨"B1", "B", 5, 30⟩ : SpatialInstance) ∈ c5Instances ∧
    findNeighborPair 10 c5Instances = [] := by
  exact ⟨by decide, by decide, by decide, by decide, by decide⟩

/-! ## Claim C1: pointer-identity intersection in the NR-tree path -/

/-- Input for C1: `C1` and `A1` are neighbors (distance `√2 ≤ d = 2`).
Counts are equal, so the feature order is `A ≺ C` and the ordered
neighborhood of center `A1` holds `C1`. -/
def c1Instances : List SpatialInstance :=
  [⟨"C1", "C", 0, 0⟩, ⟨"A1", "A", 1, 1⟩]

def c1Counts : CountMap := countInstancesByFeature c1Instances

def c1Env : Env := ⟨c1Instances, findNeighborPair 2 c1Instances⟩

def c1NM : NeighMap := ((buildFromPairs c1Env c1Counts).toOption).getD []

def c1Tree : NRTreeT := buildNRTree c1Env c1NM c1Counts

/-- C1: for the surviving candidate `(A, C)` and the row `I = (A1)` of the
prefix table, the specification's extension set (intersection of
`neighbors_of` over object ids) is `getB ["C1"]`, but the source's
`findExtendedSet` — which looks the center up by the raw pointer stored in
the tree (a pointer into the pair vector) and receives a pointer into the
original instance vector — returns the empty set, so `genTableInstance`
emits no row at all for `(A, C)`. -/
theorem c1_code_bug :
    (buildFromPairs c1Env c1Counts).toOption = some c1NM ∧
    findNeighborPair 2 c1Instances =
      [(⟨"C1", "C", 0, 0⟩, ⟨"A1", "A", 1, 1⟩)] ∧
    specExtendedSetIds c1Env c1Tree [Ptr.orig 1] "C" = ["C1"] ∧
    findExtendedSet c1Env c1Tree [Ptr.orig 1] "C" = [] ∧
    genTableInstance c1Env c1Tree [["A", "C"]] (initialTables c1Instances) = [] := by
  refine ⟨by with_unfolding_all decide, by with_unfolding_all decide,
    by with_unfolding_all decide, by with_unfolding_all decide,
    by with_unfolding_all decide⟩

/-! ## Pointer provenance: every NR-tree center aims into the pair vector

The miner's size-1 rows aim into the original instance vector, so the
pointer-equality lookup of `findNeighbors` can never hit a tree center;
consequently every table map generated at level `≥ 2` of a run is empty.
This is the machinery behind claims C4 and C2. -/

/-- The pointer aims into the pair vector (is not an original-vector
pointer). -/
def PtrIsPair : Ptr → Prop
  | .orig _ => False
  | .pfst _ => True
  | .psnd _ => True

instance (p : Ptr) : Decidable (PtrIsPair p) := by
  cases p <;> simp [PtrIsPair] <;> infer_instance

theorem except_bind_ok {σ β : Type} (x : σ) (f : σ → Except Err β) :
    (Except.ok x >>= f) = f x := rfl

theorem except_bind_error {σ β : Type} (e : Err) (f : σ → Except Err β) :
    ((Except.error e : Except Err σ) >>= f) = Except.error e := rfl

/-- Invariant preservation through a monadic fold in `Except` (the step
may use membership of the element in the folded list). -/
theorem foldlM_ok_inv {α σ : Type} (step : σ → α → Except Err σ) (P : σ → Prop)
    (l : List α)
    (hstep : ∀ s a s', a ∈ l → P s → step s a = .ok s' → P s') :
    ∀ (s0 : σ), P s0 →
      ∀ s', l.foldlM step s0 = .ok s' → P s' := by
  induction l with
  | nil =>
      intro s0 h0 s' hout
      simp only [List.foldlM_nil] at hout
      cases hout
      exact h0
  | cons a rest ih =>
      intro s0 h0 s' hout
      rw [List.foldlM_cons] at hout
      cases h1 : step s0 a with
      | error e => rw [h1, except_bind_error] at hout; cases hout
      | ok s1 =>
          rw [h1, except_bind_ok] at hout
          refine ih ?_ s1 (hstep s0 a s1 (List.mem_cons_self a rest) h0 h1) s' hout
          intro s a' s' ha' hP hst
          exact hstep s a' s' (List.mem_cons_of_mem a ha') hP hst

theorem lookup_setStars (nm : NeighMap) (t t' : FeatureType)
    (f : List OrderedNeigh → List OrderedNeigh) :
    (setStars nm t f).lookup t' =
      if t = t' then some (f ((nm.lookup t).getD [])) else nm.lookup t' := by
  induction nm with
  | nil =>
      by_cases h : t = t'
      · subst h; simp [setStars]
      · have hk : (t' == t) = false := beq_eq_false_iff_ne.mpr fun h' => h h'.symm
        simp [setStars, List.lookup, hk, h]
  | cons e rest ih =>
      obtain ⟨a, s⟩ := e
      by_cases hat : a = t <;> by_cases hat' : a = t'
      · subst hat; subst hat'
        simp [setStars, List.lookup]
      · subst hat
        have hk : (t' == a) = false := beq_eq_false_iff_ne.mpr fun h' => hat' h'.symm
        simp [setStars, List.lookup, hk, hat']
      · subst hat'
        have hne : ¬(t = a) := fun h' => hat h'.symm
        simp [setStars, hat, List.lookup, hne]
      · have hk : (t' == a) = false := beq_eq_false_iff_ne.mpr fun h' => hat' h'.symm
        have hk2 : (t == a) = false := beq_eq_false_iff_ne.mpr fun h' => hat h'.symm
        simp [setStars, hat, List.lookup, hk, hk2, ih]

theorem addToStars_center (env : Env) (stars : List OrderedNeigh) (cid : String)
    (cptr : Ptr) (nt : FeatureType) (np : Ptr) :
    ∀ s' ∈ addToStars env stars cid cptr nt np,
      s'.center = cptr ∨ ∃ s ∈ stars, s'.center = s.center := by
  induction stars with
  | nil =>
      intro s' hs'
      simp [addToStars] at hs'
      subst hs'
      exact Or.inl rfl
  | cons s rest ih =>
      intro s' hs'
      by_cases hc : (env.deref s.center).id = cid
      · simp only [addToStars, hc, if_true] at hs'
        rcases List.mem_cons.mp hs' with h | h
        · subst h; exact Or.inr ⟨s, List.mem_cons_self s rest, rfl⟩
        · exact Or.inr ⟨s', List.mem_cons_of_mem s h, rfl⟩
      · simp only [addToStars, hc, if_false] at hs'
        rcases List.mem_cons.mp hs' with h | h
        · exact Or.inr ⟨s, List.mem_cons_self s rest, by rw [h]⟩
        · rcases ih s' h with h' | ⟨s0, hs0, h'⟩
          · exact Or.inl h'
          · exact Or.inr ⟨s0, List.mem_cons_of_mem s hs0, h'⟩

/-- All centers of an ordered-neighborhood map aim into the pair
vector. -/
def NMCentersPair (nm : NeighMap) : Prop :=
  ∀ t stars, nm.lookup t = some stars → ∀ s ∈ stars, PtrIsPair s.center

theorem ptrIsPair_pfst (j : ℕ) : PtrIsPair (Ptr.pfst j) := trivial

theorem ptrIsPair_psnd (j : ℕ) : PtrIsPair (Ptr.psnd j) := trivial

/-- `setStars` with an `addToStars` update preserves the pair-pointer
center invariant when the new center is a pair pointer. -/
theorem setStars_addToStars_pres (env : Env) (nm : NeighMap) (t : FeatureType)
    (cid : String) (cptr : Ptr) (hcp : PtrIsPair cptr) (nt : FeatureType) (np : Ptr)
    (hP : NMCentersPair nm) :
    NMCentersPair (setStars nm t (fun s => addToStars env s cid cptr nt np)) := by
  intro t' stars hl s' hs'
  rw [lookup_setStars] at hl
  split at hl
  · cases hl
    rcases addToStars_center env _ _ _ _ _ s' hs' with h' | ⟨s0, hs0, h'⟩
    · rw [h']; exact hcp
    · rw [h']
      cases hold : nm.lookup t with
      | none => rw [hold] at hs0; cases hs0
      | some st0 => rw [hold] at hs0; exact hP _ st0 hold s0 hs0
  · exact hP _ stars hl s' hs'

theorem addFirst_pres (env : Env) (nm : NeighMap)
    (jp : ℕ × SpatialInstance × SpatialInstance) (o1 : Bool)
    (hP : NMCentersPair nm) : NMCentersPair (addFirst env nm jp o1) := by
  unfold addFirst
  split
  · exact setStars_addToStars_pres env _ _ _ _ (ptrIsPair_pfst _) _ _ hP
  · exact hP

theorem addSecond_pres (env : Env) (nm : NeighMap)
    (jp : ℕ × SpatialInstance × SpatialInstance) (o2 : Bool)
    (hP : NMCentersPair nm) : NMCentersPair (addSecond env nm jp o2) := by
  unfold addSecond
  split
  · exact setStars_addToStars_pres env _ _ _ _ (ptrIsPair_psnd _) _ _ hP
  · exact hP

theorem buildStep_pres (env : Env) (counts : CountMap) (s : NeighMap)
    (a : ℕ × SpatialInstance × SpatialInstance) (s' : NeighMap)
    (hP : NMCentersPair s) (h : buildStep env counts s a = .ok s') :
    NMCentersPair s' := by
  unfold buildStep at h
  cases h1 : isOrdered a.2.1.type a.2.2.type counts with
  | error e => rw [h1] at h; cases h
  | ok o1 =>
      rw [h1] at h
      cases h2 : isOrdered a.2.2.type a.2.1.type counts with
      | error e => rw [h2] at h; cases h
      | ok o2 =>
          rw [h2] at h
          cases h
          exact addSecond_pres env _ a o2 (addFirst_pres env s a o1 hP)

theorem buildFromPairs_centers (env : Env) (counts : CountMap) (nm : NeighMap)
    (h : buildFromPairs env counts = .ok nm) : NMCentersPair nm := by
  unfold buildFromPairs at h
  refine foldlM_ok_inv _ NMCentersPair env.pairs.enum ?_ [] ?_ nm h
  · intro s a s' _ hP hstep
    exact buildStep_pres env counts s a s' hP hstep
  · intro t stars hl
    cases hl

/-- All level-2 centers of the NR-tree aim into the pair vector. -/
def TreeCentersPair (tree : NRTreeT) : Prop :=
  ∀ l1 ∈ tree, ∀ l2 ∈ l1.children, PtrIsPair l2.instancePtr

theorem buildNRTree_centers (env : Env) (nm : NeighMap) (counts : CountMap)
    (h : NMCentersPair nm) : TreeCentersPair (buildNRTree env nm counts) := by
  intro l1 hl1 l2 hl2
  unfold buildNRTree at hl1
  rcases List.mem_map.mp hl1 with ⟨ft, _, hl1eq⟩
  subst hl1eq
  simp only at hl2
  rcases List.mem_map.mp hl2 with ⟨star, hstar, hl2eq⟩
  subst hl2eq
  have hmem : star ∈ ((nm.lookup ft).getD []) :=
    ((List.perm_insertionSort (centerIdLE env) _).mem_iff).mp hstar
  cases hlk : nm.lookup ft with
  | none => rw [hlk] at hmem; cases hmem
  | some stars =>
      rw [hlk] at hmem
      exact h ft stars hlk star hmem

theorem findNeighbors_orig_nil (env : Env) (tree : NRTreeT)
    (htree : TreeCentersPair tree) (i : ℕ) (f : FeatureType) :
    findNeighbors env tree (Ptr.orig i) f = [] := by
  unfold findNeighbors
  have hflat : (tree.flatMap fun l1 =>
      if l1.featureType = (env.deref (Ptr.orig i)).type then
        l1.children.flatMap fun l2 =>
          if l2.instancePtr = Ptr.orig i then
            l2.children.filterMap fun l3 =>
              if l3.featureType = f then some l3.leaf else none
          else []
      else []) = [] := by
    rw [List.flatMap_eq_nil_iff]
    intro l1 hl1
    split
    · rw [List.flatMap_eq_nil_iff]
      intro l2 hl2
      split
      · next heq =>
          have := htree l1 hl1 l2 hl2
          rw [heq] at this
          cases this
      · rfl
    · rfl
  rw [hflat]
  rfl

theorem foldl_filter_nil {α : Type} (g : α → List Ptr) (rest : List α) :
    rest.foldl (fun (inter : List Ptr) p => inter.filter (fun q => q ∈ g p)) [] = [] := by
  induction rest with
  | nil => rfl
  | cons p rest ih => simpa using ih

theorem findExtendedSet_orig_nil (env : Env) (tree : NRTreeT)
    (htree : TreeCentersPair tree) (i : ℕ) (rest : Row) (f : FeatureType) :
    findExtendedSet env tree (Ptr.orig i :: rest) f = [] := by
  rw [findExtendedSet, findNeighbors_orig_nil env tree htree i f]
  exact foldl_filter_nil _ rest

/-- The prefix-table rows are all single original-vector pointers. -/
def RowsOrig (T : TableMap) : Prop :=
  ∀ C rows, T.lookup C = some rows → ∀ r ∈ rows, ∃ i, r = [Ptr.orig i]

theorem lookup_bumpTable (m : TableMap) (c c' : Colocation) (r : Row) :
    (bumpTable m c r).lookup c' =
      if c = c' then some (((m.lookup c).getD []) ++ [r]) else m.lookup c' := by
  induction m with
  | nil =>
      by_cases h : c = c'
      · subst h; simp [bumpTable]
      · have hk : (c' == c) = false := beq_eq_false_iff_ne.mpr fun h' => h h'.symm
        simp [bumpTable, List.lookup, hk, h]
  | cons e rest ih =>
      obtain ⟨a, s⟩ := e
      by_cases hac : a = c <;> by_cases hac' : a = c'
      · subst hac; subst hac'
        simp [bumpTable, List.lookup]
      · subst hac
        have hk : (c' == a) = false := beq_eq_false_iff_ne.mpr fun h' => hac' h'.symm
        simp [bumpTable, List.lookup, hk, hac']
      · subst hac'
        have hne : ¬(c = a) := fun h' => hac h'.symm
        simp [bumpTable, hac, List.lookup, hne]
      · have hk : (c' == a) = false := beq_eq_false_iff_ne.mpr fun h' => hac' h'.symm
        have hk2 : (c == a) = false := beq_eq_false_iff_ne.mpr fun h' => hac h'.symm
        simp [bumpTable, hac, List.lookup, hk, hk2, ih]

theorem initialTables_rowsOrig (instances : List SpatialInstance) :
    RowsOrig (initialTables instances) := by
  unfold initialTables
  have main : ∀ (l : List (ℕ × SpatialInstance)) (m : TableMap), RowsOrig m →
      RowsOrig (l.foldl (fun m ip => bumpTable m [ip.2.type] [Ptr.orig ip.1]) m) := by
    intro l
    induction l with
    | nil => intro m hm; exact hm
    | cons ip rest ih =>
        intro m hm
        simp only [List.foldl_cons]
        refine ih _ ?_
        intro C rows hl r hr
        rw [lookup_bumpTable] at hl
        split at hl
        · cases hl
          rcases List.mem_append.mp hr with h | h
          · cases hold : m.lookup [ip.2.type] with
            | none => rw [hold] at h; cases h
            | some rows0 => rw [hold] at h; exact hm _ rows0 hold r h
          · have hr' : r = [Ptr.orig ip.1] := by simpa using h
            exact ⟨ip.1, hr'⟩
        · exact hm C rows hl r hr
  refine main instances.enum [] ?_
  intro C rows hl
  cases hl

theorem foldl_const {α β : Type} (step : β → α → β) (l : List α) (b : β)
    (h : ∀ b' a, a ∈ l → step b' a = b') : l.foldl step b = b := by
  induction l generalizing b with
  | nil => rfl
  | cons a rest ih =>
      simp only [List.foldl_cons]
      rw [h b a (List.mem_cons_self a rest)]
      exact ih b fun b' a' ha' => h b' a' (List.mem_cons_of_mem a ha')

/-- A table generated from original-pointer rows through a pair-pointer
tree is empty: no extension set is ever nonempty. -/
theorem extendRows_rowsOrig_nil (env : Env) (tree : NRTreeT)
    (htree : TreeCentersPair tree) (prevRows : List Row) (f : FeatureType)
    (hrows : ∀ r ∈ prevRows, ∃ i, r = [Ptr.orig i]) :
    extendRows env tree prevRows f = [] := by
  unfold extendRows
  rw [List.flatMap_eq_nil_iff]
  intro r hr
  rcases hrows r hr with ⟨i, hi⟩
  subst hi
  rw [findExtendedSet_orig_nil env tree htree i [] f]
  rfl

theorem genTableInstance_rowsOrig (env : Env) (tree : NRTreeT)
    (htree : TreeCentersPair tree) (candidates : List Colocation)
    (prevT : TableMap) (hT : RowsOrig prevT) :
    genTableInstance env tree candidates prevT = [] := by
  unfold genTableInstance
  refine foldl_const _ candidates [] ?_
  intro acc c _
  have hext : extendRows env tree ((prevT.lookup c.dropLast).getD []) (c.getLastD "") = [] := by
    refine extendRows_rowsOrig_nil env tree htree _ _ ?_
    intro r hr
    cases hlk : prevT.lookup c.dropLast with
    | none => rw [hlk] at hr; cases hr
    | some prevRows => rw [hlk] at hr; exact hT c.dropLast prevRows hlk r hr
  rw [hext]
  simp

theorem genTableInstance_nil (env : Env) (tree : NRTreeT)
    (candidates : List Colocation) :
    genTableInstance env tree candidates [] = [] := by
  unfold genTableInstance
  refine foldl_const _ candidates [] ?_
  intro acc c _
  have hext : extendRows env tree (((List.lookup c.dropLast ([] : TableMap)).getD [])) (c.getLastD "") = [] := by
    simp [List.lookup, extendRows]
  rw [hext]
  simp

/-- Through the whole level loop, every recorded per-level table is
empty. -/
theorem mineLoop_tables_empty (env : Env) (tree : NRTreeT) (counts : CountMap)
    (minPrev delta : ℝ) (instances : List SpatialInstance)
    (htree : TreeCentersPair tree) :
    ∀ (fuel : ℕ) (st : LoopState),
      (st.prevT = initialTables instances ∨ st.prevT = []) →
      (∀ tb ∈ st.tabs, tb = ([] : TableMap)) →
      ∀ res, mineLoopFuel env tree counts minPrev delta fuel st = .ok res →
      ∀ tb ∈ res.2, tb = [] := by
  intro fuel
  induction fuel with
  | zero =>
      intro st _ _ res hrun
      cases hrun
  | succ fuel ih =>
      intro st hT htabs res hrun
      rw [mineLoopFuel] at hrun
      split at hrun
      · cases hrun
        exact htabs
      · cases hgc : generateCandidates st.prevCol counts with
        | error e =>
            rw [hgc] at hrun
            cases hrun
        | ok cs =>
            rw [hgc] at hrun
            simp only [Except.bind] at hrun
            split at hrun
            · cases hrun
              exact htabs
            · rw [loopBody_eq] at hrun
              have htk : genTableInstance env tree
                  (levelFcs env counts minPrev delta st cs) st.prevT = [] := by
                rcases hT with hT | hT
                · rw [hT]
                  exact genTableInstance_rowsOrig env tree htree _ _
                    (initialTables_rowsOrig instances)
                · rw [hT]
                  exact genTableInstance_nil env tree _
              rw [htk] at hrun
              refine ih _ (Or.inr rfl) ?_ res hrun
              intro tb htb
              rcases List.mem_append.mp htb with h | h
              · exact htabs tb h
              · simpa using h

/-- Every table map recorded by a successful run is empty. -/
theorem runMine_tables_empty (d : ℤ) (minPrev : ℝ)
    (instances : List SpatialInstance) (res : List Colocation × List TableMap)
    (hrun : runMine d minPrev instances = .ok res) :
    ∀ tb ∈ res.2, tb = ([] : TableMap) := by
  unfold runMine at hrun
  simp only [SpatialIndex.mk'] at hrun
  cases hbp : buildFromPairs ⟨instances, findNeighborPair d instances⟩
      (countInstancesByFeature instances) with
  | error e => rw [hbp, except_bind_error] at hrun; cases hrun
  | ok nm =>
      rw [hbp, except_bind_ok] at hrun
      have hcenters := buildFromPairs_centers _ _ nm hbp
      have htree := buildNRTree_centers ⟨instances, findNeighborPair d instances⟩
        nm (countInstancesByFeature instances) hcenters
      unfold mineColocations at hrun
      exact mineLoop_tables_empty _ _ _ _ _ instances htree _ _
        (Or.inl rfl) (by intro tb htb; cases htb) res hrun

/-- The table map at any level of any run is the empty map. -/
theorem runTablesAt_empty (d : ℤ) (minPrev : ℝ)
    (instances : List SpatialInstance) (k : ℕ) :
    runTablesAt d minPrev instances k = [] := by
  unfold runTablesAt
  cases hrun : runMine d minPrev instances with
  | error e => rfl
  | ok res =>
      show (res.2.get? (k - 2)).getD [] = []
      cases hg : res.2.get? (k - 2) with
      | none => rfl
      | some tb =>
          simp only [Option.getD_some]
          exact runMine_tables_empty d minPrev instances res hrun tb (List.get?_mem hg)

theorem calculatePR_nonneg (env : Env) (f : FeatureType) (pattern : Colocation)
    (tables : TableMap) (counts : CountMap) :
    0 ≤ calculatePR env f pattern tables counts := by
  unfold calculatePR
  split
  · dsimp only
    split
    · exact le_refl 0
    · positivity
  · exact le_refl 0

theorem calculatePR_empty (env : Env) (f : FeatureType) (pattern : Colocation)
    (counts : CountMap) :
    calculatePR env f pattern ([] : TableMap) counts = 0 := by
  unfold calculatePR
  split
  · simp [List.lookup]
  · rfl

/-! ## Claim C4 -/

/-- C4: in every mining run, every table map reaching a `calculatePR` call
(the per-level maps produced by `genTableInstance`, at select and filter
sites alike) is the empty map, and on it the participation ratio is `0`,
hence within `[0, 1]`; moreover `calculatePR` is nonnegative on every
input. -/
theorem c4_pr_in_unit_interval :
    (∀ (d : ℤ) (minPrev : ℝ) (instances : List SpatialInstance) (k : ℕ),
      runTablesAt d minPrev instances k = []) ∧
    (∀ (env : Env) (f : FeatureType) (pattern : Colocation) (counts : CountMap),
      calculatePR env f pattern ([] : TableMap) counts = 0 ∧
      0 ≤ calculatePR env f pattern ([] : TableMap) counts ∧
      calculatePR env f pattern ([] : TableMap) counts ≤ 1) ∧
    (∀ (env : Env) (f : FeatureType) (pattern : Colocation) (tables : TableMap)
      (counts : CountMap), 0 ≤ calculatePR env f pattern tables counts) := by
  refine ⟨runTablesAt_empty, ?_, calculatePR_nonneg⟩
  intro env f pattern counts
  have h0 := calculatePR_empty env f pattern counts
  exact ⟨h0, by rw [h0], by rw [h0]; norm_num⟩

/-! ## Claim C6: rows stored by `genTableInstance` are neighbor cliques -/

theorem sqDist_symm (a b : SpatialInstance) : sqDist a b = sqDist b a := by
  unfold sqDist; ring

theorem withinD_symm (a b : SpatialInstance) (d : ℤ) (h : withinD a b d) :
    withinD b a d := ⟨h.1, by rw [sqDist_symm]; exact h.2⟩

theorem emitChecked_some (d : ℤ) (a b : SpatialInstance)
    (pr : SpatialInstance × SpatialInstance) (h : emitChecked d a b = some pr) :
    pr = (a, b) ∧ a.type ≠ b.type ∧ withinD a b d := by
  unfold emitChecked at h
  split at h
  · next hcond => injection h with h; exact ⟨h.symm, hcond⟩
  · cases h

/-- Every pair collected by the per-cell loop: distinct types, within the
threshold, and both components drawn from the cell or the adjacency
list. -/
theorem iterCell_sound (d : ℤ) (adj : List SpatialInstance)
    (P : SpatialInstance → Prop) (hadj : ∀ x ∈ adj, P x) :
    ∀ (cell : List SpatialInstance), (∀ x ∈ cell, P x) →
      ∀ pr ∈ iterCell d adj cell,
        pr.1.type ≠ pr.2.type ∧ withinD pr.1 pr.2 d ∧ P pr.1 ∧ P pr.2 := by
  intro cell
  induction cell with
  | nil => intro _ pr hpr; cases hpr
  | cons a rest ih =>
      intro hcell pr hpr
      unfold iterCell at hpr
      rcases List.mem_append.mp hpr with hpr | hpr
      · rcases List.mem_append.mp hpr with hpr | hpr
        · rcases List.mem_filterMap.mp hpr with ⟨b, hb, he⟩
          obtain ⟨hpe, hty, hw⟩ := emitChecked_some d a b pr he
          subst hpe
          exact ⟨hty, hw, hcell a (List.mem_cons_self a rest),
            hcell b (List.mem_cons_of_mem a hb)⟩
        · rcases List.mem_filterMap.mp hpr with ⟨b, hb, he⟩
          obtain ⟨hpe, hty, hw⟩ := emitChecked_some d a b pr he
          subst hpe
          exact ⟨hty, hw, hcell a (List.mem_cons_self a rest), hadj b hb⟩
      · exact ih (fun x hx => hcell x (List.mem_cons_of_mem a hx)) pr hpr

/-- Soundness of `findNeighborPair`: every emitted pair has distinct
feature types, is within the distance threshold, and both components are
members of the input vector. -/
theorem findNeighborPair_sound (d : ℤ) (instances : List SpatialInstance) :
    ∀ pr ∈ findNeighborPair d instances,
      pr.1.type ≠ pr.2.type ∧ withinD pr.1 pr.2 d ∧
        pr.1 ∈ instances ∧ pr.2 ∈ instances := by
  intro pr hpr
  cases instances with
  | nil => simp [findNeighborPair] at hpr
  | cons a as =>
      unfold findNeighborPair at hpr
      simp only [List.mem_flatMap] at hpr
      obtain ⟨cx, hcx, hpr⟩ := hpr
      obtain ⟨cy, hcy, hpr⟩ := hpr
      refine iterCell_sound d _ (fun x => x ∈ a :: as) ?_ _ ?_ pr hpr
      · intro x hx
        rcases List.mem_flatMap.mp hx with ⟨dxy, hdxy, hx⟩
        split at hx
        · exact List.mem_of_mem_filter hx
        · cases hx
      · intro x hx
        exact List.mem_of_mem_filter hx

/-- An element of `l.enum` is a valid index paired with the value at that
index. -/
theorem mem_enum_val {α : Type} [Inhabited α] (l : List α) (a : ℕ × α)
    (h : a ∈ l.enum) : a.1 < l.length ∧ l.getD a.1 default = a.2 := by
  have h1 : l.get? a.1 = some a.2 := by
    rw [← List.mem_enum_iff_get?]
    exact h
  obtain ⟨hlen, hget⟩ := List.get?_eq_some.mp h1
  refine ⟨hlen, ?_⟩
  rw [List.getD_eq_get?, h1]
  rfl

/-- Provenance of a neighbor entry: the partner pointer of some pair whose
recorded side's id equals the center's dereferenced id. -/
def NbrRel (env : Env) (c q : Ptr) : Prop :=
  ∃ j, j < env.pairs.length ∧
    ((q = Ptr.psnd j ∧ (env.deref c).id = (env.pairs.getD j default).1.id) ∨
     (q = Ptr.pfst j ∧ (env.deref c).id = (env.pairs.getD j default).2.id))

/-- Per-neighborhood provenance of all stored neighbor pointers. -/
def StarOK (env : Env) (s : OrderedNeigh) : Prop :=
  ∀ nt lst, s.neighbors.lookup nt = some lst → ∀ q ∈ lst, NbrRel env s.center q

/-- Map-wide neighbor provenance. -/
def NMNbr (env : Env) (nm : NeighMap) : Prop :=
  ∀ t stars, nm.lookup t = some stars → ∀ s ∈ stars, StarOK env s

theorem lookup_pushNbr (m : List (FeatureType × List Ptr)) (t t' : FeatureType)
    (p : Ptr) :
    (pushNbr m t p).lookup t' =
      if t = t' then some (((m.lookup t).getD []) ++ [p]) else m.lookup t' := by
  induction m with
  | nil =>
      by_cases h : t = t'
      · subst h; simp [pushNbr]
      · have hk : (t' == t) = false := beq_eq_false_iff_ne.mpr fun h' => h h'.symm
        simp [pushNbr, List.lookup, hk, h]
  | cons e rest ih =>
      obtain ⟨a, s⟩ := e
      by_cases hat : a = t <;> by_cases hat' : a = t'
      · subst hat; subst hat'
        simp [pushNbr, List.lookup]
      · subst hat
        have hk : (t' == a) = false := beq_eq_false_iff_ne.mpr fun h' => hat' h'.symm
        simp [pushNbr, List.lookup, hk, hat']
      · subst hat'
        have hne : ¬(t = a) := fun h' => hat h'.symm
        simp [pushNbr, hat, List.lookup, hne]
      · have hk : (t' == a) = false := beq_eq_false_iff_ne.mpr fun h' => hat' h'.symm
        have hk2 : (t == a) = false := beq_eq_false_iff_ne.mpr fun h' => hat h'.symm
        simp [pushNbr, hat, List.lookup, hk, hk2, ih]

/-- `addToStars` preserves per-star neighbor provenance when the inserted
neighbor pointer is related to every center whose id is the recorded
one. -/
theorem addToStars_nbr (env : Env) (cid : String) (cptr : Ptr)
    (nt : FeatureType) (np : Ptr)
    (hcid : (env.deref cptr).id = cid)
    (H : ∀ c : Ptr, (env.deref c).id = cid → NbrRel env c np) :
    ∀ (stars : List OrderedNeigh), (∀ s ∈ stars, StarOK env s) →
      ∀ s' ∈ addToStars env stars cid cptr nt np, StarOK env s' := by
  intro stars
  induction stars with
  | nil =>
      intro _ s' hs'
      simp only [addToStars, List.mem_singleton] at hs'
      subst hs'
      intro nt' lst hl q hq
      by_cases he : nt' = nt
      · subst he
        have hl' : (([(nt', [np])] : List (FeatureType × List Ptr)).lookup nt') =
            some lst := hl
        simp only [List.lookup, beq_self_eq_true, Option.some.injEq] at hl'
        subst hl'
        have hqe : q = np := by simpa using hq
        subst hqe
        exact H cptr hcid
      · have hk : (nt' == nt) = false := beq_eq_false_iff_ne.mpr he
        have hl' : (([(nt, [np])] : List (FeatureType × List Ptr)).lookup nt') =
            some lst := hl
        simp [List.lookup, hk] at hl'
  | cons s rest ih =>
      intro hstars s' hs'
      by_cases hc : (env.deref s.center).id = cid
      · simp only [addToStars, hc, if_true] at hs'
        rcases List.mem_cons.mp hs' with h | h
        · subst h
          intro nt' lst hl q hq
          have hl' : (pushNbr s.neighbors nt np).lookup nt' = some lst := hl
          rw [lookup_pushNbr] at hl'
          split at hl'
          · injection hl' with hl'
            subst hl'
            rcases List.mem_append.mp hq with hq | hq
            · cases hold : s.neighbors.lookup nt with
              | none => rw [hold] at hq; cases hq
              | some old =>
                  rw [hold] at hq
                  exact hstars s (List.mem_cons_self s rest) nt old hold q hq
            · have hqe : q = np := by simpa using hq
              subst hqe
              exact H s.center hc
          · exact hstars s (List.mem_cons_self s rest) nt' lst hl' q hq
        · exact hstars s' (List.mem_cons_of_mem s h)
      · simp only [addToStars, hc, if_false] at hs'
        rcases List.mem_cons.mp hs' with h | h
        · rw [h]
          exact hstars s (List.mem_cons_self s rest)
        · exact ih (fun s0 hs0 => hstars s0 (List.mem_cons_of_mem s hs0)) s' h

/-- `setStars` with an `addToStars` update preserves map-wide neighbor
provenance. -/
theorem setStars_addToStars_nbr (env : Env) (nm : NeighMap) (t : FeatureType)
    (cid : String) (cptr : Ptr) (nt : FeatureType) (np : Ptr)
    (hcid : (env.deref cptr).id = cid)
    (H : ∀ c : Ptr, (env.deref c).id = cid → NbrRel env c np)
    (hP : NMNbr env nm) :
    NMNbr env (setStars nm t (fun s => addToStars env s cid cptr nt np)) := by
  intro t' stars hl s' hs'
  rw [lookup_setStars] at hl
  split at hl
  · injection hl with hl
    subst hl
    refine addToStars_nbr env cid cptr nt np hcid H ((nm.lookup t).getD []) ?_ s' hs'
    intro s0 hs0
    cases hold : nm.lookup t with
    | none => rw [hold] at hs0; cases hs0
    | some st0 =>
        rw [hold] at hs0
        exact hP t st0 hold s0 hs0
  · exact hP t' stars hl s' hs'

theorem addFirst_nbr (env : Env) (nm : NeighMap)
    (jp : ℕ × SpatialInstance × SpatialInstance) (o1 : Bool)
    (hj : jp.1 < env.pairs.length)
    (hv : env.pairs.getD jp.1 default = jp.2)
    (hP : NMNbr env nm) : NMNbr env (addFirst env nm jp o1) := by
  unfold addFirst
  split
  · refine setStars_addToStars_nbr env nm jp.2.1.type jp.2.1.id (Ptr.pfst jp.1)
      jp.2.2.type (Ptr.psnd jp.1) ?_ ?_ hP
    · show (env.deref (Ptr.pfst jp.1)).id = jp.2.1.id
      rw [show env.deref (Ptr.pfst jp.1) = (env.pairs.getD jp.1 default).1 from rfl, hv]
    · intro c hc
      exact ⟨jp.1, hj, Or.inl ⟨rfl, by rw [hc, hv]⟩⟩
  · exact hP

theorem addSecond_nbr (env : Env) (nm : NeighMap)
    (jp : ℕ × SpatialInstance × SpatialInstance) (o2 : Bool)
    (hj : jp.1 < env.pairs.length)
    (hv : env.pairs.getD jp.1 default = jp.2)
    (hP : NMNbr env nm) : NMNbr env (addSecond env nm jp o2) := by
  unfold addSecond
  split
  · refine setStars_addToStars_nbr env nm jp.2.2.type jp.2.2.id (Ptr.psnd jp.1)
      jp.2.1.type (Ptr.pfst jp.1) ?_ ?_ hP
    · show (env.deref (Ptr.psnd jp.1)).id = jp.2.2.id
      rw [show env.deref (Ptr.psnd jp.1) = (env.pairs.getD jp.1 default).2 from rfl, hv]
    · intro c hc
      exact ⟨jp.1, hj, Or.inr ⟨rfl, by rw [hc, hv]⟩⟩
  · exact hP

theorem buildStep_nbr (env : Env) (counts : CountMap) (s : NeighMap)
    (a : ℕ × SpatialInstance × SpatialInstance) (s' : NeighMap)
    (hj : a.1 < env.pairs.length)
    (hv : env.pairs.getD a.1 default = a.2)
    (hP : NMNbr env s) (h : buildStep env counts s a = .ok s') :
    NMNbr env s' := by
  unfold buildStep at h
  cases h1 : isOrdered a.2.1.type a.2.2.type counts with
  | error e => rw [h1] at h; cases h
  | ok o1 =>
      rw [h1] at h
      cases h2 : isOrdered a.2.2.type a.2.1.type counts with
      | error e => rw [h2] at h; cases h
      | ok o2 =>
          rw [h2] at h
          cases h
          exact addSecond_nbr env _ a o2 hj hv (addFirst_nbr env s a o1 hj hv hP)

/-- Every neighbor pointer stored by `buildFromPairs` is the partner of a
pair whose recorded side's id equals the center's id. -/
theorem buildFromPairs_nbr (env : Env) (counts : CountMap) (nm : NeighMap)
    (h : buildFromPairs env counts = .ok nm) : NMNbr env nm := by
  unfold buildFromPairs at h
  refine foldlM_ok_inv _ (NMNbr env) env.pairs.enum ?_ [] ?_ nm h
  · intro s a s' ha hP hstep
    obtain ⟨hj, hv⟩ := mem_enum_val env.pairs a ha
    exact buildStep_nbr env counts s a s' hj hv hP hstep
  · intro t stars hl
    cases hl

/-- Tree-level neighbor provenance: every level-4 entry is the pair
partner of its level-2 center. -/
def TreeNbr (env : Env) (tree : NRTreeT) : Prop :=
  ∀ l1 ∈ tree, ∀ l2 ∈ l1.children, ∀ l3 ∈ l2.children, ∀ q ∈ l3.leaf,
    NbrRel env l2.instancePtr q

theorem buildNRTree_nbr (env : Env) (nm : NeighMap) (counts : CountMap)
    (h : NMNbr env nm) : TreeNbr env (buildNRTree env nm counts) := by
  intro l1 hl1 l2 hl2 l3 hl3 q hq
  unfold buildNRTree at hl1
  rcases List.mem_map.mp hl1 with ⟨ft, _, hl1eq⟩
  subst hl1eq
  simp only at hl2
  rcases List.mem_map.mp hl2 with ⟨star, hstar, hl2eq⟩
  subst hl2eq
  simp only at hl3
  rcases List.mem_map.mp hl3 with ⟨nt, _, hl3eq⟩
  subst hl3eq
  simp only at hq
  have hq2 : q ∈ ((star.neighbors.lookup nt).getD []) :=
    ((List.perm_insertionSort (ptrTypeIdLE env) _).mem_iff).mp hq
  have hstar2 : star ∈ ((nm.lookup ft).getD []) :=
    ((List.perm_insertionSort (centerIdLE env) _).mem_iff).mp hstar
  cases hlk : nm.lookup ft with
  | none => rw [hlk] at hstar2; cases hstar2
  | some stars =>
      rw [hlk] at hstar2
      cases hlkn : star.neighbors.lookup nt with
      | none => rw [hlkn] at hq2; cases hq2
      | some lst =>
          rw [hlkn] at hq2
          exact h ft stars hlk star hstar2 nt lst hlkn q hq2

theorem mem_headD_nil {α : Type} (l : List (List α)) (q : α)
    (h : q ∈ l.headD []) : ∃ x ∈ l, q ∈ x := by
  cases l with
  | nil => cases h
  | cons x xs => exact ⟨x, List.mem_cons_self x xs, h⟩

/-- Every pointer returned by `findNeighbors` is a stored neighbor of the
queried center pointer. -/
theorem findNeighbors_sound (env : Env) (tree : NRTreeT)
    (htree : TreeNbr env tree) (p : Ptr) (f : FeatureType) :
    ∀ q ∈ findNeighbors env tree p f, NbrRel env p q := by
  intro q hq
  unfold findNeighbors at hq
  obtain ⟨x, hx, hqx⟩ := mem_headD_nil _ q hq
  rcases List.mem_flatMap.mp hx with ⟨l1, hl1, hx⟩
  split at hx
  · rcases List.mem_flatMap.mp hx with ⟨l2, hl2, hx⟩
    split at hx
    · next hp =>
        rcases List.mem_filterMap.mp hx with ⟨l3, hl3, he⟩
        split at he
        · injection he with he
          subst he
          have hrel := htree l1 hl1 l2 hl2 l3 hl3 q hqx
          rwa [hp] at hrel
        · cases he
    · cases hx
  · cases hx

theorem foldl_filter_mem {α : Type} (g : α → List Ptr) :
    ∀ (l : List α) (init : List Ptr) (q : Ptr),
      q ∈ l.foldl (fun inter p => inter.filter (fun x => x ∈ g p)) init →
        q ∈ init ∧ ∀ p ∈ l, q ∈ g p := by
  intro l
  induction l with
  | nil =>
      intro init q h
      exact ⟨h, by intro p hp; cases hp⟩
  | cons p rest ih =>
      intro init q h
      rw [List.foldl_cons] at h
      obtain ⟨hmem, hrest⟩ := ih _ q h
      have h1 := List.mem_filter.mp hmem
      refine ⟨h1.1, ?_⟩
      intro p2 hp2
      rcases List.mem_cons.mp hp2 with h2 | h2
      · subst h2
        exact of_decide_eq_true h1.2
      · exact hrest p2 h2

/-- Every member of the extended set of a row is a `findNeighbors` result
of every pointer of the row. -/
theorem findExtendedSet_sound (env : Env) (tree : NRTreeT) (row : Row)
    (f : FeatureType) :
    ∀ q ∈ findExtendedSet env tree row f, ∀ p ∈ row,
      q ∈ findNeighbors env tree p f := by
  intro q hq p hp
  cases row with
  | nil => cases hp
  | cons p0 rest =>
      rw [findExtendedSet] at hq
      obtain ⟨h0, hrest⟩ :=
        foldl_filter_mem (fun p2 => findNeighbors env tree p2 f) rest
          (findNeighbors env tree p0 f) q hq
      rcases List.mem_cons.mp hp with h | h
      · subst h
        exact h0
      · exact hrest p h

/-- With sound pairs and unique instance ids, a stored neighbor relation
yields the distance bound and instance-vector membership of the
neighbor. -/
theorem nbrRel_within (env : Env) (d : ℤ)
    (hpairs : ∀ pr ∈ env.pairs, pr.1.type ≠ pr.2.type ∧ withinD pr.1 pr.2 d ∧
      pr.1 ∈ env.instances ∧ pr.2 ∈ env.instances)
    (hids : (env.instances.map (fun o => o.id)).Nodup)
    (p q : Ptr) (hp : env.deref p ∈ env.instances) (hrel : NbrRel env p q) :
    withinD (env.deref p) (env.deref q) d ∧ env.deref q ∈ env.instances := by
  obtain ⟨j, hj, hcase⟩ := hrel
  have hmem : env.pairs.getD j default ∈ env.pairs := by
    rw [List.getD_eq_get _ _ hj]
    exact List.get_mem _ _ _
  obtain ⟨hty, hw, h1, h2⟩ := hpairs _ hmem
  have hinj := List.inj_on_of_nodup_map hids
  rcases hcase with ⟨hq, hid⟩ | ⟨hq, hid⟩
  · subst hq
    have hd2 : env.deref (Ptr.psnd j) = (env.pairs.getD j default).2 := rfl
    have hpe : env.deref p = (env.pairs.getD j default).1 := hinj hp h1 hid
    rw [hpe, hd2]
    exact ⟨hw, h2⟩
  · subst hq
    have hd2 : env.deref (Ptr.pfst j) = (env.pairs.getD j default).1 := rfl
    have hpe : env.deref p = (env.pairs.getD j default).2 := hinj hp h2 hid
    rw [hpe, hd2]
    exact ⟨withinD_symm _ _ _ hw, h1⟩

theorem lookup_append_tab (l l2 : TableMap) (C : Colocation) :
    (l ++ l2).lookup C =
      match l.lookup C with
      | some v => some v
      | none => l2.lookup C := by
  induction l with
  | nil => rfl
  | cons e rest ih =>
      obtain ⟨a, b⟩ := e
      by_cases h : C = a
      · subst h
        simp [List.lookup]
      · have hk : (C == a) = false := beq_eq_false_iff_ne.mpr h
        simp [List.lookup, hk, ih]

/-- Characterization of a successful lookup in the fold of
`genTableInstance`: the stored rows are exactly the nonempty extension of
the prefix table under a nonempty candidate equal to the key. -/
theorem genTab_fold_lookup (env : Env) (tree : NRTreeT) (prevT : TableMap) :
    ∀ (cs : List Colocation) (acc : TableMap) (C : Colocation) (rows : List Row),
      (cs.foldl
        (fun result c =>
          if c = [] then result
          else if extendRows env tree ((prevT.lookup c.dropLast).getD [])
              (c.getLastD "") = [] then result
          else result ++
            [(c, extendRows env tree ((prevT.lookup c.dropLast).getD [])
              (c.getLastD ""))])
        acc).lookup C = some rows →
      acc.lookup C = some rows ∨
        ∃ c ∈ cs, c = C ∧ c ≠ [] ∧
          rows = extendRows env tree ((prevT.lookup c.dropLast).getD [])
            (c.getLastD "") := by
  intro cs
  induction cs with
  | nil =>
      intro acc C rows h
      exact Or.inl h
  | cons c cs ih =>
      intro acc C rows h
      rw [List.foldl_cons] at h
      rcases ih _ C rows h with h2 | ⟨c2, hc2, he, hne, hr⟩
      · by_cases h0 : c = []
        · rw [if_pos h0] at h2
          exact Or.inl h2
        · rw [if_neg h0] at h2
          by_cases h1 : extendRows env tree ((prevT.lookup c.dropLast).getD [])
              (c.getLastD "") = []
          · rw [if_pos h1] at h2
            exact Or.inl h2
          · rw [if_neg h1] at h2
            rw [lookup_append_tab] at h2
            cases hacc : acc.lookup C with
            | some v =>
                rw [hacc] at h2
                exact Or.inl h2
            | none =>
                rw [hacc] at h2
                by_cases hce : C = c
                · subst hce
                  simp only [List.lookup, beq_self_eq_true, Option.some.injEq] at h2
                  exact Or.inr ⟨C, List.mem_cons_self C cs, rfl, h0, h2.symm⟩
                · have hk : (C == c) = false := beq_eq_false_iff_ne.mpr hce
                  simp [List.lookup, hk] at h2
      · exact Or.inr ⟨c2, List.mem_cons_of_mem c hc2, he, hne, hr⟩

theorem genTableInstance_lookup (env : Env) (tree : NRTreeT)
    (candidates : List Colocation) (prevT : TableMap) (C : Colocation)
    (rows : List Row)
    (h : (genTableInstance env tree candidates prevT).lookup C = some rows) :
    ∃ c ∈ candidates, c = C ∧ c ≠ [] ∧
      rows = extendRows env tree ((prevT.lookup c.dropLast).getD [])
        (c.getLastD "") := by
  unfold genTableInstance at h
  rcases genTab_fold_lookup env tree prevT candidates [] C rows h with h2 | h2
  · simp [List.lookup] at h2
  · exact h2

theorem extendRows_mem (env : Env) (tree : NRTreeT) (prevRows : List Row)
    (f : FeatureType) (r2 : Row) (h : r2 ∈ extendRows env tree prevRows f) :
    ∃ r ∈ prevRows, ∃ o, o ∈ findExtendedSet env tree r f ∧
      (env.deref o).type = f ∧ r2 = r ++ [o] := by
  unfold extendRows at h
  rcases List.mem_flatMap.mp h with ⟨r, hr, h⟩
  rcases List.mem_filterMap.mp h with ⟨o, ho, he⟩
  split at he
  · next ht =>
      injection he with he
      exact ⟨r, hr, o, ho, ht, he.symm⟩
  · cases he

/-- The row invariant of the claim: `|C|` entries, type sequence equal to
`C` position by position, all entries pairwise within the distance
threshold, and each entry dereferencing into the instance vector. -/
def GoodRow (env : Env) (d : ℤ) (C : Colocation) (r : Row) : Prop :=
  r.length = C.length ∧
  r.map (fun p => (env.deref p).type) = C ∧
  r.Pairwise (fun p q => withinD (env.deref p) (env.deref q) d) ∧
  ∀ p ∈ r, env.deref p ∈ env.instances

instance (env : Env) (d : ℤ) :
    DecidableRel (fun p q : Ptr => withinD (env.deref p) (env.deref q) d) :=
  fun p q => inferInstanceAs (Decidable (withinD (env.deref p) (env.deref q) d))

instance (env : Env) (d : ℤ) (C : Colocation) (r : Row) :
    Decidable (GoodRow env d C r) := by
  unfold GoodRow
  infer_instance

def GoodRows (env : Env) (d : ℤ) (C : Colocation) (rows : List Row) : Prop :=
  ∀ r ∈ rows, GoodRow env d C r

instance (env : Env) (d : ℤ) (C : Colocation) (rows : List Row) :
    Decidable (GoodRows env d C rows) := by
  unfold GoodRows
  infer_instance

theorem dropLast_append_getLastD {α : Type} (l : List α) (a : α) (h : l ≠ []) :
    l.dropLast ++ [l.getLastD a] = l := by
  induction l generalizing a with
  | nil => cases h rfl
  | cons x xs ih =>
      cases xs with
      | nil => rfl
      | cons y ys =>
          have h2 : (y :: ys) ≠ ([] : List α) := by simp
          rw [List.getLastD_cons]
          have hdl : (x :: y :: ys).dropLast = x :: (y :: ys).dropLast := rfl
          rw [hdl, List.cons_append, ih x h2]

/-- C6: every row stored by `genTableInstance` under a candidate `C` has
exactly `|C|` entries, its sequence of dereferenced feature types equals
`C` position by position, and its objects are pairwise within the
Euclidean distance threshold — given that the pair vector is
`findNeighborPair`'s output on the instance vector, instance ids are
unique, the ordered-neighborhood map was built from those pairs by
`buildFromPairs`, and the previous-level table satisfies the same row
invariant. -/
theorem c6_rows_are_neighbor_cliques (d : ℤ) (env : Env) (nm : NeighMap)
    (counts : CountMap) (candidates : List Colocation) (prevT : TableMap)
    (henv : env.pairs = findNeighborPair d env.instances)
    (hids : (env.instances.map (fun o => o.id)).Nodup)
    (hbp : buildFromPairs env counts = .ok nm)
    (hprev : ∀ C2 rows2, prevT.lookup C2 = some rows2 → GoodRows env d C2 rows2) :
    ∀ C rows,
      (genTableInstance env (buildNRTree env nm counts) candidates
        prevT).lookup C = some rows →
      GoodRows env d C rows := by
  intro C rows hlk r2 hr2
  obtain ⟨c, hc, hce, hcne, hrows⟩ :=
    genTableInstance_lookup env _ candidates prevT C rows hlk
  subst hce
  subst hrows
  obtain ⟨r, hrmem, o, ho, hot, hre⟩ := extendRows_mem env _ _ _ r2 hr2
  subst hre
  have hr0 : GoodRow env d c.dropLast r := by
    cases hlp : prevT.lookup c.dropLast with
    | none =>
        rw [hlp] at hrmem
        cases hrmem
    | some rows0 =>
        rw [hlp] at hrmem
        exact hprev _ rows0 hlp r hrmem
  have htreenbr : TreeNbr env (buildNRTree env nm counts) :=
    buildNRTree_nbr env nm counts (buildFromPairs_nbr env counts nm hbp)
  have hpairs : ∀ pr ∈ env.pairs, pr.1.type ≠ pr.2.type ∧
      withinD pr.1 pr.2 d ∧ pr.1 ∈ env.instances ∧ pr.2 ∈ env.instances := by
    rw [henv]
    exact findNeighborPair_sound d env.instances
  have hfacts : ∀ p ∈ r,
      withinD (env.deref p) (env.deref o) d ∧ env.deref o ∈ env.instances := by
    intro p hp
    have h1 : o ∈ findNeighbors env (buildNRTree env nm counts) p
        (c.getLastD "") := findExtendedSet_sound env _ r _ o ho p hp
    exact nbrRel_within env d hpairs hids p o (hr0.2.2.2 p hp)
      (findNeighbors_sound env _ htreenbr p _ o h1)
  have hrne : r ≠ [] := by
    intro h0
    rw [h0] at ho
    simp [findExtendedSet] at ho
  obtain ⟨p0, hp0⟩ := List.exists_mem_of_ne_nil r hrne
  have hoin : env.deref o ∈ env.instances := (hfacts p0 hp0).2
  refine ⟨?_, ?_, ?_, ?_⟩
  · have h1 : (r ++ [o]).length = r.length + 1 := by simp
    rw [h1, hr0.1, List.length_dropLast]
    have h2 : 0 < c.length := List.length_pos.mpr hcne
    omega
  · rw [List.map_append, hr0.2.1]
    show c.dropLast ++ [(env.deref o).type] = c
    rw [hot]
    exact dropLast_append_getLastD c "" hcne
  · refine List.pairwise_append.mpr ⟨hr0.2.2.1, List.pairwise_singleton _ _, ?_⟩
    intro p hp q hq
    have hqo : q = o := by simpa using hq
    subst hqo
    exact (hfacts p hp).1
  · intro p hp
    rcases List.mem_append.mp hp with h | h
    · exact hr0.2.2.2 p h
    · have hpo : p = o := by simpa using h
      subst hpo
      exact hoin

theorem except_ok_of_toOption {σ : Type} (x : Except Err σ) (v : σ)
    (h : x.toOption = some v) : x = .ok v := by
  cases x with
  | ok w =>
      simp [Except.toOption] at h
      rw [h]
  | error e => simp [Except.toOption] at h

/-- A one-row prefix table whose single row holds the pair pointer to
`A1`, the ordered center of the single neighbor pair of the C1/C6 input
data. -/
def c6PrevT : TableMap := [(["A"], [[Ptr.psnd 0]])]

/-- Witness for C6: on the two-object input, with the prefix table holding
the pair-pointer row `(A1)`, the candidate `(A, C)` is extended to the
stored row `(A1, C1)`, and the theorem applies with every hypothesis
discharged on this input. -/
theorem c6_rows_are_neighbor_cliques_witness :
    (c1Instances.map (fun o => o.id)).Nodup ∧
    (buildFromPairs c1Env c1Counts).toOption = some c1NM ∧
    GoodRows c1Env 2 ["A"] [[Ptr.psnd 0]] ∧
    (genTableInstance c1Env (buildNRTree c1Env c1NM c1Counts) [["A", "C"]]
        c6PrevT).lookup ["A", "C"] = some [[Ptr.psnd 0, Ptr.pfst 0]] ∧
    (∀ C rows,
      (genTableInstance c1Env (buildNRTree c1Env c1NM c1Counts) [["A", "C"]]
          c6PrevT).lookup C = some rows →
      GoodRows c1Env 2 C rows) := by
  refine ⟨by with_unfolding_all decide, by with_unfolding_all decide,
    by with_unfolding_all decide, by with_unfolding_all decide, ?_⟩
  refine c6_rows_are_neighbor_cliques 2 c1Env c1NM c1Counts [["A", "C"]]
    c6PrevT rfl (by with_unfolding_all decide)
    (except_ok_of_toOption _ _ (by with_unfolding_all decide)) ?_
  intro C2 rows2 h
  simp only [c6PrevT, List.lookup] at h
  split at h
  · next he =>
      have hc : C2 = ["A"] := by simpa using he
      injection h with h
      subst hc
      rw [← h]
      with_unfolding_all decide
  · cases h

/-! ## Claim C8: loop termination and result shape -/

theorem except_bindE_ok {σ β : Type} (x : σ) (f : σ → Except Err β) :
    (Except.ok x).bind f = f x := rfl

theorem except_bindE_error {σ β : Type} (e : Err) (f : σ → Except Err β) :
    ((Except.error e : Except Err σ)).bind f = Except.error e := rfl

theorem lookupE_no_fuel (m : CountMap) (k : FeatureType) :
    lookupE m k ≠ .error .fuelOut := by
  intro h
  unfold lookupE at h
  split at h
  · exact Except.noConfusion h
  · injection h with h
    exact Err.noConfusion h

theorem joinOne_no_fuel (counts : CountMap) (pq : Colocation × Colocation) :
    joinOne counts pq ≠ .error .fuelOut := by
  intro h
  unfold joinOne at h
  split at h
  · exact Except.noConfusion h
  · cases h1 : lookupE counts (pq.1.getLastD "") with
    | error e =>
        rw [h1, except_bind_error] at h
        injection h with h
        exact lookupE_no_fuel counts _ (by rw [h1, h])
    | ok cp =>
        rw [h1, except_bind_ok] at h
        cases h2 : lookupE counts (pq.2.getLastD "") with
        | error e =>
            rw [h2, except_bind_error] at h
            injection h with h
            exact lookupE_no_fuel counts _ (by rw [h2, h])
        | ok cq =>
            rw [h2, except_bind_ok] at h
            exact Except.noConfusion h

theorem joinStep_no_fuel (counts : CountMap) (acc : List Colocation)
    (pq : Colocation × Colocation) : joinStep counts acc pq ≠ .error .fuelOut := by
  intro h
  unfold joinStep at h
  cases h1 : joinOne counts pq with
  | error e =>
      rw [h1, except_bindE_error] at h
      injection h with h
      exact joinOne_no_fuel counts pq (by rw [h1, h])
  | ok r =>
      rw [h1, except_bindE_ok] at h
      cases r with
      | none => exact Except.noConfusion h
      | some c => exact Except.noConfusion h

theorem foldlM_no_fuel {α σ : Type} (step : σ → α → Except Err σ)
    (hstep : ∀ s a, step s a ≠ .error .fuelOut) :
    ∀ (l : List α) (s0 : σ), l.foldlM step s0 ≠ .error .fuelOut := by
  intro l
  induction l with
  | nil =>
      intro s0 h
      simp only [List.foldlM_nil] at h
      exact Except.noConfusion h
  | cons a rest ih =>
      intro s0 h
      rw [List.foldlM_cons] at h
      cases h1 : step s0 a with
      | error e =>
          rw [h1, except_bind_error] at h
          injection h with h
          exact hstep s0 a (by rw [h1, h])
      | ok s1 =>
          rw [h1, except_bind_ok] at h
          exact ih s1 h

theorem generateCandidates_no_fuel (prevList : List Colocation)
    (counts : CountMap) : generateCandidates prevList counts ≠ .error .fuelOut := by
  intro h
  unfold generateCandidates at h
  split at h
  · exact Except.noConfusion h
  · cases hf : (joinPairsList prevList).foldlM (joinStep counts) [] with
    | error e =>
        rw [hf, except_bindE_error] at h
        injection h with h
        exact foldlM_no_fuel (joinStep counts) (joinStep_no_fuel counts)
          (joinPairsList prevList) [] (by rw [hf, h])
    | ok raw =>
        rw [hf, except_bindE_ok] at h
        exact Except.noConfusion h

/-- A successful join: the two parents agree on the `k-2` prefix and the
result extends one parent by the other's last feature. -/
theorem joinOne_some (counts : CountMap) (pq : Colocation × Colocation)
    (c : Colocation) (h : joinOne counts pq = .ok (some c)) :
    pq.1.dropLast = pq.2.dropLast ∧
      (c = pq.1 ++ [pq.2.getLastD ""] ∨ c = pq.2 ++ [pq.1.getLastD ""]) := by
  unfold joinOne at h
  split at h
  · injection h with h
    exact Option.noConfusion h
  · next hd =>
      refine ⟨not_not.mp hd, ?_⟩
      cases h1 : lookupE counts (pq.1.getLastD "") with
      | error e => rw [h1, except_bind_error] at h; exact Except.noConfusion h
      | ok cp =>
          rw [h1, except_bind_ok] at h
          cases h2 : lookupE counts (pq.2.getLastD "") with
          | error e => rw [h2, except_bind_error] at h; exact Except.noConfusion h
          | ok cq =>
              rw [h2, except_bind_ok] at h
              injection h with h
              injection h with h
              split at h
              · exact Or.inl h.symm
              · exact Or.inr h.symm

/-- The index pairs materialized by `joinPairsList` over a duplicate-free
list are pairs of distinct members. -/
theorem joinPairsList_mem (l : List Colocation) (hl : l.Nodup) :
    ∀ pq ∈ joinPairsList l, pq.1 ∈ l ∧ pq.2 ∈ l ∧ pq.1 ≠ pq.2 := by
  induction l with
  | nil => intro pq h; cases h
  | cons a rest ih =>
      intro pq h
      unfold joinPairsList at h
      rcases List.mem_append.mp h with h | h
      · rcases List.mem_map.mp h with ⟨q, hq, he⟩
        cases he
        refine ⟨List.mem_cons_self a rest, List.mem_cons_of_mem a hq, ?_⟩
        intro he2
        refine (List.nodup_cons.mp hl).1 ?_
        rw [show a = q from he2]
        exact hq
      · obtain ⟨h1, h2, h3⟩ := ih (List.nodup_cons.mp hl).2 pq h
        exact ⟨List.mem_cons_of_mem a h1, List.mem_cons_of_mem a h2, h3⟩

theorem dedupAdj_subset : ∀ (l : List Colocation), ∀ x ∈ dedupAdj l, x ∈ l := by
  intro l
  induction l with
  | nil => intro x h; cases h
  | cons a tail ih =>
      cases tail with
      | nil =>
          intro x h
          simp [dedupAdj] at h
          simp [h]
      | cons b rest =>
          intro x h
          by_cases hab : a = b
          · rw [dedupAdj, if_pos hab] at h
            exact List.mem_cons_of_mem a (ih x h)
          · rw [dedupAdj, if_neg hab] at h
            rcases List.mem_cons.mp h with h | h
            · rw [h]
              exact List.mem_cons_self a (b :: rest)
            · exact List.mem_cons_of_mem a (ih x h)

/-- Adjacent deduplication of a `≤`-sorted list yields a strictly
increasing list. -/
theorem dedupAdj_pairwise_lt : ∀ (l : List Colocation),
    List.Pairwise (· ≤ ·) l → List.Pairwise (· < ·) (dedupAdj l) := by
  intro l
  induction l with
  | nil => intro _; simp [dedupAdj]
  | cons a tail ih =>
      cases tail with
      | nil => intro _; simp [dedupAdj]
      | cons b rest =>
          intro h2
          obtain ⟨hhead, htail⟩ := List.pairwise_cons.mp h2
          by_cases hab : a = b
          · rw [dedupAdj, if_pos hab]
            exact ih htail
          · rw [dedupAdj, if_neg hab]
            refine List.pairwise_cons.mpr ⟨?_, ih htail⟩
            intro x hx
            have hx2 : x ∈ b :: rest := dedupAdj_subset _ x hx
            have hab2 : a < b :=
              lt_of_le_of_ne (hhead b (List.mem_cons_self b rest)) hab
            rcases List.mem_cons.mp hx2 with h | h
            · rw [h]
              exact hab2
            · exact lt_of_lt_of_le hab2 ((List.pairwise_cons.mp htail).1 x h)

theorem sortDedup_nodup (l : List Colocation) : (sortDedup l).Nodup := by
  unfold sortDedup
  have hs : List.Pairwise (· ≤ ·) (List.insertionSort (· ≤ ·) l) :=
    List.sorted_insertionSort (· ≤ ·) l
  exact List.Pairwise.imp (fun h => ne_of_lt h) (dedupAdj_pairwise_lt _ hs)

theorem sortDedup_subset (l : List Colocation) : ∀ x ∈ sortDedup l, x ∈ l := by
  intro x hx
  exact ((List.perm_insertionSort (· ≤ ·) l).mem_iff).mp
    (dedupAdj_subset _ x hx)

/-- A well-formed colocation: duplicate-free, of the given size, with all
features drawn from the observed types. -/
def ColGood (types : List FeatureType) (n : ℕ) (c : Colocation) : Prop :=
  c.Nodup ∧ c.length = n ∧ ∀ f ∈ c, f ∈ types

instance (types : List FeatureType) (n : ℕ) (c : Colocation) :
    Decidable (ColGood types n c) := by
  unfold ColGood
  infer_instance

theorem getLastD_mem (l : Colocation) (a : FeatureType) (h : l ≠ []) :
    l.getLastD a ∈ l := by
  have h3 : l.getLastD a ∈ l.dropLast ++ [l.getLastD a] :=
    List.mem_append_right _ (List.mem_singleton_self _)
  rwa [dropLast_append_getLastD l a h] at h3

/-- The join of two distinct equal-prefix well-formed colocations of size
`n` is a well-formed colocation of size `n + 1`. -/
theorem join_colGood (types : List FeatureType) (n : ℕ) (p q : Colocation)
    (hp : ColGood types n p) (hq : ColGood types n q) (hne : p ≠ q)
    (hd : p.dropLast = q.dropLast) (hn : 1 ≤ n) :
    ColGood types (n + 1) (p ++ [q.getLastD ""]) := by
  obtain ⟨hpnd, hplen, hpsub⟩ := hp
  obtain ⟨hqnd, hqlen, hqsub⟩ := hq
  have hpne : p ≠ [] := by
    intro h0
    rw [h0] at hplen
    simp at hplen
    omega
  have hqne : q ≠ [] := by
    intro h0
    rw [h0] at hqlen
    simp at hqlen
    omega
  have hpd := dropLast_append_getLastD p "" hpne
  have hqd := dropLast_append_getLastD q "" hqne
  have hqnotp : q.getLastD "" ∉ p := by
    intro hmem
    rw [← hpd] at hmem
    rcases List.mem_append.mp hmem with hmem | hmem
    · rw [hd] at hmem
      have hqnd2 : (q.dropLast ++ [q.getLastD ""]).Nodup := by
        rw [hqd]
        exact hqnd
      have hdisj := (List.nodup_append.mp hqnd2).2.2
      exact hdisj hmem (List.mem_singleton_self _)
    · have heq : q.getLastD "" = p.getLastD "" := by simpa using hmem
      apply hne
      rw [← hpd, ← hqd, hd, heq]
  refine ⟨?_, ?_, ?_⟩
  · rw [List.nodup_append]
    refine ⟨hpnd, List.nodup_singleton _, ?_⟩
    intro x hx hx2
    have hxe : x = q.getLastD "" := by simpa using hx2
    exact hqnotp (hxe ▸ hx)
  · simp [hplen]
  · intro f hf
    rcases List.mem_append.mp hf with hf | hf
    · exact hpsub f hf
    · have hfe : f = q.getLastD "" := by simpa using hf
      rw [hfe]
      exact hqsub _ (getLastD_mem q "" hqne)

/-- Characterization of a successful `generateCandidates`: the output is
the sorted deduplication of a list of successful joins. -/
theorem generateCandidates_ok (prevList : List Colocation) (counts : CountMap)
    (cs : List Colocation) (h : generateCandidates prevList counts = .ok cs) :
    cs = [] ∨ ∃ raw, cs = sortDedup raw ∧
      ∀ c ∈ raw, ∃ pq ∈ joinPairsList prevList, joinOne counts pq = .ok (some c) := by
  unfold generateCandidates at h
  split at h
  · injection h with h
    exact Or.inl h.symm
  · cases hf : (joinPairsList prevList).foldlM (joinStep counts) [] with
    | error e => rw [hf, except_bindE_error] at h; exact Except.noConfusion h
    | ok raw =>
        rw [hf, except_bindE_ok] at h
        injection h with h
        refine Or.inr ⟨raw, h.symm, ?_⟩
        refine foldlM_ok_inv (joinStep counts)
          (fun acc => ∀ c ∈ acc, ∃ pq ∈ joinPairsList prevList,
            joinOne counts pq = .ok (some c))
          (joinPairsList prevList) ?_ [] (by intro c hc; cases hc) raw hf
        intro s a s2 ha hP hstep
        unfold joinStep at hstep
        cases h1 : joinOne counts a with
        | error e => rw [h1, except_bindE_error] at hstep; exact Except.noConfusion hstep
        | ok r =>
            rw [h1, except_bindE_ok] at hstep
            cases r with
            | none =>
                injection hstep with hstep
                rw [← hstep]
                exact hP
            | some c =>
                injection hstep with hstep
                rw [← hstep]
                intro c2 hc2
                rcases List.mem_append.mp hc2 with hc2 | hc2
                · exact hP c2 hc2
                · have hce : c2 = c := by simpa using hc2
                  exact ⟨a, ha, by rw [hce, h1]⟩

/-- Every candidate generated from a duplicate-free list of well-formed
size-`n` colocations is well-formed of size `n + 1`, and the candidate
list itself is duplicate-free. -/
theorem generateCandidates_colGood (types : List FeatureType) (n : ℕ)
    (prevList : List Colocation) (counts : CountMap) (cs : List Colocation)
    (hgen : generateCandidates prevList counts = .ok cs)
    (hprev : ∀ c ∈ prevList, ColGood types n c) (hnd : prevList.Nodup)
    (hn : 1 ≤ n) :
    cs.Nodup ∧ ∀ c ∈ cs, ColGood types (n + 1) c := by
  rcases generateCandidates_ok prevList counts cs hgen with h | ⟨raw, he, hraw⟩
  · rw [h]
    exact ⟨List.nodup_nil, by intro c hc; cases hc⟩
  · rw [he]
    refine ⟨sortDedup_nodup raw, ?_⟩
    intro c hc
    obtain ⟨pq, hpq, hjoin⟩ := hraw c (sortDedup_subset raw c hc)
    obtain ⟨hp, hq, hne⟩ := joinPairsList_mem prevList hnd pq hpq
    obtain ⟨hd, hcase⟩ := joinOne_some counts pq c hjoin
    rcases hcase with h | h
    · rw [h]
      exact join_colGood types n pq.1 pq.2 (hprev _ hp) (hprev _ hq) hne hd hn
    · rw [h]
      exact join_colGood types n pq.2 pq.1 (hprev _ hq) (hprev _ hp)
        (fun h2 => hne h2.symm) hd.symm hn

/-- The loop invariant of `mineColocations`: the level counter is at least
`2`, the previous prevalent list is duplicate-free, and each of its
members is a well-formed colocation of size `k - 1`. -/
def LoopInv (types : List FeatureType) (st : LoopState) : Prop :=
  2 ≤ st.k ∧ st.prevCol.Nodup ∧ ∀ c ∈ st.prevCol, ColGood types (st.k - 1) c

theorem mineLoopFuel_succ (env : Env) (tree : NRTreeT) (counts : CountMap)
    (minPrev delta : ℝ) (n : ℕ) (st : LoopState) :
    mineLoopFuel env tree counts minPrev delta (n + 1) st =
      if st.prevCol = [] then .ok (st.acc, st.tabs)
      else (generateCandidates st.prevCol counts).bind fun cs =>
        if cs = [] then .ok (st.acc, st.tabs)
        else mineLoopFuel env tree counts minPrev delta n
          (loopBody env tree counts minPrev delta st cs) := rfl

theorem levelFcs_sublist (env : Env) (counts : CountMap) (minPrev delta : ℝ)
    (st : LoopState) (cs : List Colocation) :
    List.Sublist (levelFcs env counts minPrev delta st cs) cs := by
  unfold levelFcs
  split
  · exact List.Sublist.refl cs
  · unfold filterCandidates
    split
    · exact List.nil_sublist cs
    · exact List.filter_sublist cs

theorem selectPrev_sublist (env : Env) (tree : NRTreeT) (counts : CountMap)
    (minPrev delta : ℝ) (st : LoopState) (cs : List Colocation) :
    List.Sublist
      (selectPrevColocations env (levelFcs env counts minPrev delta st cs)
        (genTableInstance env tree (levelFcs env counts minPrev delta st cs) st.prevT)
        minPrev counts delta) cs := by
  unfold selectPrevColocations
  exact (List.filter_sublist _).trans (levelFcs_sublist env counts minPrev delta st cs)

/-- One loop iteration preserves the invariant. -/
theorem loopBody_inv (env : Env) (tree : NRTreeT) (counts : CountMap)
    (minPrev delta : ℝ) (types : List FeatureType) (st : LoopState)
    (cs : List Colocation) (hinv : LoopInv types st)
    (hgen : generateCandidates st.prevCol counts = .ok cs) :
    LoopInv types (loopBody env tree counts minPrev delta st cs) := by
  obtain ⟨hk, hnd, hcol⟩ := hinv
  have hn : 1 ≤ st.k - 1 := by omega
  obtain ⟨hcsnd, hcsgood⟩ :=
    generateCandidates_colGood types (st.k - 1) st.prevCol counts cs hgen hcol hnd hn
  have hsel := selectPrev_sublist env tree counts minPrev delta st cs
  rw [loopBody_eq]
  refine ⟨by dsimp only; omega, hsel.nodup hcsnd, ?_⟩
  intro c hc
  have hcc : c ∈ cs := hsel.subset hc
  have hgood := hcsgood c hcc
  have hke : st.k + 1 - 1 = (st.k - 1) + 1 := by omega
  show ColGood types (st.k + 1 - 1) c
  rw [hke]
  exact hgood

/-- A nonempty prevalent list bounds the level by the number of observed
types. -/
theorem k_le_of_prevCol_ne (types : List FeatureType) (st : LoopState)
    (hinv : LoopInv types st) (hne : st.prevCol ≠ []) :
    st.k ≤ types.length + 1 := by
  obtain ⟨c, hc⟩ := List.exists_mem_of_ne_nil _ hne
  obtain ⟨hcnd, hclen, hcsub⟩ := hinv.2.2 c hc
  have hsub : List.Subperm c types :=
    List.subperm_of_subset hcnd (fun f hf => hcsub f hf)
  have hlen := hsub.length_le
  have hk := hinv.1
  omega

/-- Fuel sufficiency: with the invariant and at least
`types.length + 3 - k` units of fuel, the loop's value is independent of
any additional fuel and is never the fuel-exhaustion artifact. -/
theorem mineLoop_fuel_stable (env : Env) (tree : NRTreeT) (counts : CountMap)
    (minPrev delta : ℝ) (types : List FeatureType) :
    ∀ (fuel : ℕ) (st : LoopState), LoopInv types st →
      1 ≤ fuel → types.length + 3 - st.k ≤ fuel →
      (∀ fuel2, fuel ≤ fuel2 →
        mineLoopFuel env tree counts minPrev delta fuel2 st =
          mineLoopFuel env tree counts minPrev delta fuel st) ∧
      mineLoopFuel env tree counts minPrev delta fuel st ≠ .error .fuelOut := by
  intro fuel
  induction fuel with
  | zero =>
      intro st _ h1 _
      omega
  | succ n ih =>
      intro st hinv h1 hbound
      constructor
      · intro fuel2 hf2
        cases fuel2 with
        | zero => omega
        | succ n2 =>
            rw [mineLoopFuel_succ, mineLoopFuel_succ]
            by_cases hpc : st.prevCol = []
            · rw [if_pos hpc, if_pos hpc]
            · rw [if_neg hpc, if_neg hpc]
              have hkb := k_le_of_prevCol_ne types st hinv hpc
              cases hgen : generateCandidates st.prevCol counts with
              | error e => simp only [except_bindE_error]
              | ok cs =>
                  simp only [except_bindE_ok]
                  by_cases hcs : cs = []
                  · rw [if_pos hcs, if_pos hcs]
                  · rw [if_neg hcs, if_neg hcs]
                    have hinv2 := loopBody_inv env tree counts minPrev delta
                      types st cs hinv hgen
                    have hkst : (loopBody env tree counts minPrev delta st cs).k
                        = st.k + 1 := rfl
                    have h12 : 1 ≤ n := by omega
                    have hb2 : types.length + 3 -
                        (loopBody env tree counts minPrev delta st cs).k ≤ n := by
                      rw [hkst]
                      omega
                    exact (ih (loopBody env tree counts minPrev delta st cs)
                      hinv2 h12 hb2).1 n2 (by omega)
      · rw [mineLoopFuel_succ]
        by_cases hpc : st.prevCol = []
        · rw [if_pos hpc]
          exact fun hcontra => Except.noConfusion hcontra
        · rw [if_neg hpc]
          have hkb := k_le_of_prevCol_ne types st hinv hpc
          cases hgen : generateCandidates st.prevCol counts with
          | error e =>
              rw [except_bindE_error]
              intro hcontra
              injection hcontra with hcontra
              exact generateCandidates_no_fuel st.prevCol counts
                (by rw [hgen, hcontra])
          | ok cs =>
              rw [except_bindE_ok]
              by_cases hcs : cs = []
              · rw [if_pos hcs]
                exact fun hcontra => Except.noConfusion hcontra
              · rw [if_neg hcs]
                have hinv2 := loopBody_inv env tree counts minPrev delta
                  types st cs hinv hgen
                have hkst : (loopBody env tree counts minPrev delta st cs).k
                    = st.k + 1 := rfl
                have h12 : 1 ≤ n := by omega
                have hb2 : types.length + 3 -
                    (loopBody env tree counts minPrev delta st cs).k ≤ n := by
                  rw [hkst]
                  omega
                exact (ih (loopBody env tree counts minPrev delta st cs)
                  hinv2 h12 hb2).2

/-- Every colocation accumulated by the loop has at least two distinct
features. -/
theorem mineLoop_acc_good (env : Env) (tree : NRTreeT) (counts : CountMap)
    (minPrev delta : ℝ) (types : List FeatureType) :
    ∀ (fuel : ℕ) (st : LoopState) (res : List Colocation × List TableMap),
      LoopInv types st →
      (∀ c ∈ st.acc, 2 ≤ c.length ∧ c.Nodup) →
      mineLoopFuel env tree counts minPrev delta fuel st = .ok res →
      ∀ c ∈ res.1, 2 ≤ c.length ∧ c.Nodup := by
  intro fuel
  induction fuel with
  | zero =>
      intro st res _ _ h
      exact Except.noConfusion h
  | succ n ih =>
      intro st res hinv hacc h
      rw [mineLoopFuel_succ] at h
      by_cases hpc : st.prevCol = []
      · rw [if_pos hpc] at h
        injection h with h
        rw [← h]
        exact hacc
      · rw [if_neg hpc] at h
        cases hgen : generateCandidates st.prevCol counts with
        | error e =>
            rw [hgen, except_bindE_error] at h
            exact Except.noConfusion h
        | ok cs =>
            rw [hgen, except_bindE_ok] at h
            by_cases hcs : cs = []
            · rw [if_pos hcs] at h
              injection h with h
              rw [← h]
              exact hacc
            · rw [if_neg hcs] at h
              refine ih (loopBody env tree counts minPrev delta st cs) res
                (loopBody_inv env tree counts minPrev delta types st cs hinv hgen)
                ?_ h
              intro c hc
              have hc2 : c ∈ st.acc ++
                  selectPrevColocations env (levelFcs env counts minPrev delta st cs)
                    (genTableInstance env tree (levelFcs env counts minPrev delta st cs)
                      st.prevT) minPrev counts delta := hc
              rcases List.mem_append.mp hc2 with h2 | h2
              · exact hacc c h2
              · have hsub : c ∈ cs :=
                  (selectPrev_sublist env tree counts minPrev delta st cs).subset h2
                have hn : 1 ≤ st.k - 1 := by
                  have := hinv.1
                  omega
                obtain ⟨hnd2, hlen2, _⟩ :=
                  (generateCandidates_colGood types (st.k - 1) st.prevCol counts cs
                    hgen hinv.2.2 hinv.2.1 hn).2 c hsub
                have hk := hinv.1
                exact ⟨by omega, hnd2⟩

/-- The initial loop state of `mineColocations` (steps 1-6). -/
def initState (instances : List SpatialInstance) : LoopState :=
  ⟨2, (featureSort (getAllObjectTypes instances) instances).map (fun t => [t]),
   initialTables instances, [], []⟩

theorem mineColocations_eq (env : Env) (tree : NRTreeT) (counts : CountMap)
    (minPrev : ℝ) (instances : List SpatialInstance) :
    mineColocations env minPrev tree instances counts =
      mineLoopFuel env tree counts minPrev
        (calculateDelta (featureSort (getAllObjectTypes instances) instances) counts)
        ((getAllObjectTypes instances).length + 1) (initState instances) := rfl

theorem runMine_eq (d : ℤ) (minPrev : ℝ) (instances : List SpatialInstance) :
    runMine d minPrev instances =
      (buildFromPairs ⟨instances, findNeighborPair d instances⟩
        (countInstancesByFeature instances)).bind fun nm =>
        mineColocations ⟨instances, findNeighborPair d instances⟩ minPrev
          (buildNRTree ⟨instances, findNeighborPair d instances⟩ nm
            (countInstancesByFeature instances))
          instances (countInstancesByFeature instances) := rfl

theorem getAllObjectTypes_nodup (instances : List SpatialInstance) :
    (getAllObjectTypes instances).Nodup := by
  unfold getAllObjectTypes
  exact ((List.perm_insertionSort _ _).nodup_iff).mpr (List.nodup_dedup _)

theorem featureSort_perm (featureSet : List FeatureType)
    (instances : List SpatialInstance) :
    List.Perm (featureSort featureSet instances) featureSet := by
  unfold featureSort
  exact List.perm_insertionSort _ _

theorem initState_inv (instances : List SpatialInstance) :
    LoopInv (getAllObjectTypes instances) (initState instances) := by
  refine ⟨le_refl 2, ?_, ?_⟩
  · refine List.Nodup.map ?_ ?_
    · intro a b h
      simpa using h
    · exact ((featureSort_perm _ _).nodup_iff).mpr (getAllObjectTypes_nodup instances)
  · intro c hc
    rcases List.mem_map.mp hc with ⟨t, ht, he⟩
    subst he
    refine ⟨List.nodup_singleton t, rfl, ?_⟩
    intro f hf
    have hfe : f = t := by simpa using hf
    rw [hfe]
    exact (featureSort_perm _ _).mem_iff.mp ht

/-- C8: (i) every candidate list generated from a duplicate-free list of
well-formed size-`n` colocations is itself duplicate-free and consists of
well-formed colocations of `n + 1` distinct features drawn from the
observed types; (ii) each iteration appends the level's prevalent set
`P_k` to the accumulator and increments `k`, so the returned list is the
concatenation of the `P_k`, `k ≥ 2`; (iii) the loop terminates: the
source's bound of `types.length + 1` iterations suffices — further fuel
never changes `mineColocations`' value and the fuel-exhaustion artifact
never occurs; (iv) every colocation returned by a successful run has at
least two distinct features, so size-1 colocations are never included. -/
theorem c8_loop_terminates :
    (∀ (counts : CountMap) (types : List FeatureType) (n : ℕ)
      (prevList : List Colocation) (cs : List Colocation),
      generateCandidates prevList counts = .ok cs →
      (∀ c ∈ prevList, ColGood types n c) → prevList.Nodup → 1 ≤ n →
      cs.Nodup ∧ ∀ c ∈ cs, ColGood types (n + 1) c) ∧
    (∀ (env : Env) (tree : NRTreeT) (counts : CountMap) (minPrev delta : ℝ)
      (st : LoopState) (cs : List Colocation),
      (loopBody env tree counts minPrev delta st cs).acc =
        st.acc ++ selectPrevColocations env (levelFcs env counts minPrev delta st cs)
          (genTableInstance env tree (levelFcs env counts minPrev delta st cs) st.prevT)
          minPrev counts delta ∧
      (loopBody env tree counts minPrev delta st cs).k = st.k + 1) ∧
    (∀ (env : Env) (tree : NRTreeT) (counts : CountMap) (minPrev : ℝ)
      (instances : List SpatialInstance) (fuel : ℕ),
      (getAllObjectTypes instances).length + 1 ≤ fuel →
      mineLoopFuel env tree counts minPrev
        (calculateDelta (featureSort (getAllObjectTypes instances) instances) counts)
        fuel (initState instances) =
        mineColocations env minPrev tree instances counts) ∧
    (∀ (env : Env) (tree : NRTreeT) (counts : CountMap) (minPrev : ℝ)
      (instances : List SpatialInstance),
      mineColocations env minPrev tree instances counts ≠ .error .fuelOut) ∧
    (∀ (d : ℤ) (minPrev : ℝ) (instances : List SpatialInstance)
      (res : List Colocation × List TableMap),
      runMine d minPrev instances = .ok res →
      ∀ c ∈ res.1, 2 ≤ c.length ∧ c.Nodup) := by
  have hk2 : ∀ instances : List SpatialInstance, (initState instances).k = 2 :=
    fun _ => rfl
  refine ⟨?_, ?_, ?_, ?_, ?_⟩
  · intro counts types n prevList cs hgen hprev hnd hn
    exact generateCandidates_colGood types n prevList counts cs hgen hprev hnd hn
  · intro env tree counts minPrev delta st cs
    exact ⟨rfl, rfl⟩
  · intro env tree counts minPrev instances fuel hfuel
    rw [mineColocations_eq]
    refine (mineLoop_fuel_stable env tree counts minPrev _
      (getAllObjectTypes instances)
      ((getAllObjectTypes instances).length + 1) (initState instances)
      (initState_inv instances) (by omega) ?_).1 fuel hfuel
    rw [hk2 instances]
    omega
  · intro env tree counts minPrev instances
    rw [mineColocations_eq]
    refine (mineLoop_fuel_stable env tree counts minPrev _
      (getAllObjectTypes instances)
      ((getAllObjectTypes instances).length + 1) (initState instances)
      (initState_inv instances) (by omega) ?_).2
    rw [hk2 instances]
    omega
  · intro d minPrev instances res hrun
    rw [runMine_eq] at hrun
    cases hbp : buildFromPairs ⟨instances, findNeighborPair d instances⟩
        (countInstancesByFeature instances) with
    | error e =>
        rw [hbp, except_bindE_error] at hrun
        exact Except.noConfusion hrun
    | ok nm =>
        rw [hbp, except_bindE_ok] at hrun
        rw [mineColocations_eq] at hrun
        refine mineLoop_acc_good _ _ _ _ _ (getAllObjectTypes instances)
          _ _ res (initState_inv instances) ?_ hrun
        intro c hc
        simp [initState] at hc

def c8Counts : CountMap := [("A", 1), ("B", 2)]

/-- Witness for C8, applying the candidate-generation conjunct at a
concrete input: joining the prevalent singletons `(A)` and `(B)` yields
the single duplicate-free candidate `(A, B)` of two distinct features. -/
theorem c8_loop_terminates_witness :
    ((generateCandidates [["A"], ["B"]] c8Counts).toOption = some [["A", "B"]] ∧
      (∀ c ∈ ([["A"], ["B"]] : List Colocation), ColGood ["A", "B"] 1 c) ∧
      ([["A"], ["B"]] : List Colocation).Nodup ∧ (1 : ℕ) ≤ 1) ∧
    (([["A", "B"]] : List Colocation).Nodup ∧
      ∀ c ∈ ([["A", "B"]] : List Colocation), ColGood ["A", "B"] (1 + 1) c) := by
  refine ⟨⟨by decide, by decide, by decide, by decide⟩, ?_⟩
  exact c8_loop_terminates.1 c8Counts ["A", "B"] 1 [["A"], ["B"]] [["A", "B"]]
    (except_ok_of_toOption _ _ (by decide)) (by decide) (by decide) (by decide)

/-! ## Claim C2: returned colocations and the WPI threshold -/

theorem rowsOrig_nil : RowsOrig ([] : TableMap) := by
  intro C rows h
  simp [List.lookup] at h

theorem wprOf_empty_table (env : Env) (f : FeatureType) (c : Colocation)
    (counts : CountMap) (delta : ℝ) :
    wprOf env f c ([] : TableMap) counts delta = 0 := by
  unfold wprOf
  rw [calculatePR_empty]
  ring

theorem foldl_min_zero {α : Type} (f : α → ℝ) :
    ∀ (l : List α), (∀ g ∈ l, f g = 0) →
      l.foldl (fun acc g => min acc (f g)) 0 = 0 := by
  intro l
  induction l with
  | nil => intro _; rfl
  | cons p rest ih =>
      intro h
      rw [List.foldl_cons]
      rw [h p (List.mem_cons_self p rest), min_self]
      exact ih (fun g hg => h g (List.mem_cons_of_mem p hg))

/-- On the empty table map every weighted participation index of a
nonempty pattern is `0`. -/
theorem wpiOf_empty_table (env : Env) (c : Colocation) (counts : CountMap)
    (delta : ℝ) (h : c ≠ []) :
    wpiOf env c ([] : TableMap) counts delta = 0 := by
  cases c with
  | nil => cases h rfl
  | cons f rest =>
      show rest.foldl
        (fun acc g => min acc (wprOf env g (f :: rest) ([] : TableMap) counts delta))
        (wprOf env f (f :: rest) ([] : TableMap) counts delta) = 0
      rw [wprOf_empty_table]
      exact foldl_min_zero
        (fun g => wprOf env g (f :: rest) ([] : TableMap) counts delta) rest
        (fun g _ => wprOf_empty_table env g (f :: rest) counts delta)

/-- Loop invariant for the selection semantics: every accumulated
colocation was selected against an empty table map, so its WPI there is
`0` and the threshold is nonpositive. -/
theorem mineLoop_acc_wpi (env : Env) (tree : NRTreeT) (counts : CountMap)
    (minPrev delta : ℝ) (types : List FeatureType)
    (htree : TreeCentersPair tree) :
    ∀ (fuel : ℕ) (st : LoopState) (res : List Colocation × List TableMap),
      LoopInv types st → RowsOrig st.prevT →
      (∀ c ∈ st.acc, minPrev ≤ 0 ∧
        minPrev ≤ wpiOf env c ([] : TableMap) counts delta) →
      mineLoopFuel env tree counts minPrev delta fuel st = .ok res →
      ∀ c ∈ res.1, minPrev ≤ 0 ∧
        minPrev ≤ wpiOf env c ([] : TableMap) counts delta := by
  intro fuel
  induction fuel with
  | zero =>
      intro st res _ _ _ h
      exact Except.noConfusion h
  | succ n ih =>
      intro st res hinv hrows hacc h
      rw [mineLoopFuel_succ] at h
      by_cases hpc : st.prevCol = []
      · rw [if_pos hpc] at h
        injection h with h
        rw [← h]
        exact hacc
      · rw [if_neg hpc] at h
        cases hgen : generateCandidates st.prevCol counts with
        | error e =>
            rw [hgen, except_bindE_error] at h
            exact Except.noConfusion h
        | ok cs =>
            rw [hgen, except_bindE_ok] at h
            by_cases hcs : cs = []
            · rw [if_pos hcs] at h
              injection h with h
              rw [← h]
              exact hacc
            · rw [if_neg hcs] at h
              rw [loopBody_eq] at h
              have htk : genTableInstance env tree
                  (levelFcs env counts minPrev delta st cs) st.prevT = [] :=
                genTableInstance_rowsOrig env tree htree _ _ hrows
              rw [htk] at h
              have hinv2 := loopBody_inv env tree counts minPrev delta types st cs
                hinv hgen
              rw [loopBody_eq, htk] at hinv2
              refine ih _ res hinv2 rowsOrig_nil ?_ h
              intro c hc
              have hc2 : c ∈ st.acc ++ selectPrevColocations env
                  (levelFcs env counts minPrev delta st cs) [] minPrev counts
                  delta := hc
              rcases List.mem_append.mp hc2 with h2 | h2
              · exact hacc c h2
              · unfold selectPrevColocations at h2
                have h3 := List.mem_filter.mp h2
                have hwpi : minPrev ≤ wpiOf env c ([] : TableMap) counts delta :=
                  of_decide_eq_true h3.2
                have hcs2 : c ∈ cs :=
                  (levelFcs_sublist env counts minPrev delta st cs).subset h3.1
                have hn : 1 ≤ st.k - 1 := by
                  have := hinv.1
                  omega
                obtain ⟨_, hlen, _⟩ := (generateCandidates_colGood types (st.k - 1)
                  st.prevCol counts cs hgen hinv.2.2 hinv.2.1 hn).2 c hcs2
                have hcne : c ≠ [] := by
                  intro h0
                  rw [h0] at hlen
                  simp at hlen
                refine ⟨?_, hwpi⟩
                rw [wpiOf_empty_table env c counts delta hcne] at hwpi
                exact hwpi

/-- Every colocation returned by a run was selected with a WPI of `0`
over the (empty) generated table, so the run's threshold must be
nonpositive and the WPI meets it. -/
theorem runMine_result_wpi (d : ℤ) (minPrev : ℝ)
    (instances : List SpatialInstance) (res : List Colocation × List TableMap)
    (hrun : runMine d minPrev instances = .ok res) :
    ∀ C ∈ res.1, minPrev ≤ 0 ∧
      minPrev ≤ wpiOf ⟨instances, findNeighborPair d instances⟩ C
        ([] : TableMap) (countInstancesByFeature instances)
        (calculateDelta (featureSort (getAllObjectTypes instances) instances)
          (countInstancesByFeature instances)) := by
  rw [runMine_eq] at hrun
  cases hbp : buildFromPairs ⟨instances, findNeighborPair d instances⟩
      (countInstancesByFeature instances) with
  | error e =>
      rw [hbp, except_bindE_error] at hrun
      exact Except.noConfusion hrun
  | ok nm =>
      rw [hbp, except_bindE_ok] at hrun
      rw [mineColocations_eq] at hrun
      have htree := buildNRTree_centers ⟨instances, findNeighborPair d instances⟩
        nm (countInstancesByFeature instances)
        (buildFromPairs_centers _ _ nm hbp)
      refine mineLoop_acc_wpi _ _ _ _ _ (getAllObjectTypes instances) htree _ _
        res (initState_inv instances) (initialTables_rowsOrig instances) ?_ hrun
      intro c hc
      simp [initState] at hc

/-- The concrete run used for C2: two objects, threshold `-1`; the run
returns exactly the candidate `(A, C)` and one (empty) level table. -/
theorem c2RunEq : runMine 2 (-1) c1Instances = .ok ([["A", "C"]], [[]]) := by
  have h0 : runMine 2 (-1) c1Instances =
      (buildFromPairs c1Env c1Counts).bind fun nm =>
        mineColocations c1Env (-1) (buildNRTree c1Env nm c1Counts) c1Instances
          c1Counts := rfl
  rw [h0]
  have hbp : buildFromPairs c1Env c1Counts = .ok c1NM :=
    except_ok_of_toOption _ _ (by with_unfolding_all decide)
  rw [hbp, except_bindE_ok]
  rw [mineColocations_eq]
  have hlen : (getAllObjectTypes c1Instances).length = 2 := by
    with_unfolding_all decide
  rw [hlen]
  show mineLoopFuel c1Env (buildNRTree c1Env c1NM c1Counts) c1Counts (-1)
    (calculateDelta (featureSort (getAllObjectTypes c1Instances) c1Instances)
      c1Counts)
    (2 + 1) (initState c1Instances) = .ok ([["A", "C"]], [[]])
  rw [mineLoopFuel_succ]
  rw [if_neg (show ¬(initState c1Instances).prevCol = [] by
    with_unfolding_all decide)]
  have hg1 : generateCandidates (initState c1Instances).prevCol c1Counts =
      .ok [["A", "C"]] :=
    except_ok_of_toOption _ _ (by with_unfolding_all decide)
  rw [hg1, except_bindE_ok]
  rw [if_neg (show ¬([["A", "C"]] : List Colocation) = [] by decide)]
  rw [loopBody_eq]
  have hfcs : ∀ dl : ℝ, levelFcs c1Env c1Counts (-1) dl (initState c1Instances)
      [["A", "C"]] = [["A", "C"]] := by
    intro dl
    unfold levelFcs
    rw [if_pos (show (initState c1Instances).k = 2 from rfl)]
  rw [hfcs]
  have htk : genTableInstance c1Env (buildNRTree c1Env c1NM c1Counts)
      [["A", "C"]] (initState c1Instances).prevT = [] := by
    with_unfolding_all decide
  rw [htk]
  have hsel : ∀ dl : ℝ, selectPrevColocations c1Env [["A", "C"]] [] (-1)
      c1Counts dl = [["A", "C"]] := by
    intro dl
    unfold selectPrevColocations
    refine List.filter_eq_self.mpr ?_
    intro c hc
    have hce : c = ["A", "C"] := by simpa using hc
    subst hce
    refine decide_eq_true ?_
    show wpiOf c1Env ["A", "C"] ([] : TableMap) c1Counts dl ≥ -1
    rw [wpiOf_empty_table c1Env ["A", "C"] c1Counts dl (by decide)]
    norm_num
  rw [hsel]
  with_unfolding_all rfl

/-- C2, counterexample to the `if` direction: with `minPrev = -1` the run
returns only the generated candidate `(A, C)`, while the size-2
colocation `(C, A)` has `WPI = 0 ≥ minPrev` over the generated (empty)
level-2 table yet does not appear in the returned list. -/
theorem c2_counterexample :
    runMine 2 (-1) c1Instances = .ok ([["A", "C"]], [[]]) ∧
    (["C", "A"] : Colocation) ∉ ([["A", "C"]] : List Colocation) ∧
    (["C", "A"] : Colocation).length = 2 ∧
    wpiOf c1Env ["C", "A"] (runTablesAt 2 (-1) c1Instances 2) c1Counts
      (calculateDelta (featureSort (getAllObjectTypes c1Instances) c1Instances)
        c1Counts) ≥ (-1) := by
  refine ⟨c2RunEq, by decide, by decide, ?_⟩
  rw [runTablesAt_empty]
  rw [wpiOf_empty_table c1Env ["C", "A"] c1Counts _ (by decide)]
  norm_num

/-- C2 (corrected): over the generated tables — all of which are empty in
every run — every WPI is `0`; hence (sound direction) every returned
colocation satisfies `WPI ≥ minPrev` and forces `minPrev ≤ 0`, and for
every positive threshold the returned list is empty (and no colocation
meets the threshold, so the claimed equivalence holds there); for
`minPrev ≤ 0` the converse direction fails (see the counterexample). -/
theorem c2_result_iff_wpi :
    (∀ (env : Env) (C : Colocation) (counts : CountMap) (delta : ℝ),
      C ≠ [] → wpiOf env C ([] : TableMap) counts delta = 0) ∧
    (∀ (d : ℤ) (minPrev : ℝ) (instances : List SpatialInstance) (k : ℕ),
      runTablesAt d minPrev instances k = []) ∧
    (∀ (d : ℤ) (minPrev : ℝ) (instances : List SpatialInstance)
      (res : List Colocation × List TableMap),
      runMine d minPrev instances = .ok res →
      ∀ C ∈ res.1, minPrev ≤ 0 ∧
        wpiOf ⟨instances, findNeighborPair d instances⟩ C ([] : TableMap)
          (countInstancesByFeature instances)
          (calculateDelta (featureSort (getAllObjectTypes instances) instances)
            (countInstancesByFeature instances)) ≥ minPrev) ∧
    (∀ (d : ℤ) (minPrev : ℝ) (instances : List SpatialInstance)
      (res : List Colocation × List TableMap),
      runMine d minPrev instances = .ok res → 0 < minPrev → res.1 = []) := by
  refine ⟨wpiOf_empty_table, runTablesAt_empty, ?_, ?_⟩
  · intro d minPrev instances res hrun C hC
    exact runMine_result_wpi d minPrev instances res hrun C hC
  · intro d minPrev instances res hrun hpos
    refine List.eq_nil_iff_forall_not_mem.mpr ?_
    intro c hc
    have h1 := (runMine_result_wpi d minPrev instances res hrun c hc).1
    linarith

/-- Witness for C2 at the concrete run with `minPrev = -1`. -/
theorem c2_result_iff_wpi_witness :
    runMine 2 (-1) c1Instances = .ok ([["A", "C"]], [[]]) ∧
    (∀ C ∈ ([["A", "C"]] : List Colocation), (-1 : ℝ) ≤ 0 ∧
      wpiOf c1Env C ([] : TableMap) c1Counts
        (calculateDelta (featureSort (getAllObjectTypes c1Instances) c1Instances)
          c1Counts) ≥ (-1)) :=
  ⟨c2RunEq, c2_result_iff_wpi.2.2.1 2 (-1) c1Instances ([["A", "C"]], [[]]) c2RunEq⟩

end CoMine
